import Mathlib

/-!
Shallow embedding of the Presidents card-game engine of `src/convex/games.js`
(`playCards`, `pass`, `restartRound`, `submitExchangeSelection` and their pure
helpers), together with theorems settling the specification claims.

Conventions of the embedding:
* A card identifier `"5C"` is a pair of a rank symbol and a suit symbol
  (`id[0]` in the source is the rank).  Multi-deck play makes equal values
  occur several times; containers are plain lists, as in the source.
* Database rows are modelled by the `DB` record: the `gamePlayers` rows
  (one hand per seat, keyed by `userId`) and the single `gameStates` row.
  The room/user/membership lookups and the `gameMode` check of the source
  resolve identity and are kept outside the model (the spec treats them as
  the external persistence collaborator); handlers take the acting user id
  directly.
* Handlers run in the monad `M`, an exception-plus-state monad whose errors
  carry the current database, so "a rejection leaves the state unchanged"
  is a real statement about where the source throws relative to its writes.
* `Math.random()`-driven code (`shuffleArray`) takes the stream of random
  draws as an explicit argument `seeds`: `Math.floor(Math.random()*(i+1))`
  becomes `seeds i % (i+1)`.  `Date.now()` becomes the argument `now`.
-/

deriving instance DecidableEq for Except

namespace Cardio

abbrev UserId := Nat

/-- A card identifier: rank symbol plus suit symbol (the source's `rank + suit`
string, whose first character is the rank). -/
structure Card where
  rank : Char
  suit : Char
deriving DecidableEq, Repr

def RANKS : List Char := ['A', '2', '3', '4', '5', '6', '7', '8', '9', 'T', 'J', 'Q', 'K']

def SUITS : List Char := ['S', 'H', 'D', 'C']

/-- For play comparison: 2 highest, then A, K... 3 lowest (lower index = higher rank). -/
def RANK_ORDER : List Char := ['2', 'A', 'K', 'Q', 'J', 'T', '9', '8', '7', '6', '5', '4', '3']

/-- `Array.prototype.indexOf` on a character list: index of the first
occurrence, or `none` when absent (the source's `-1`). -/
def charIndexOf (r : Char) : List Char → Option Nat
  | [] => none
  | c :: cs => if c = r then some 0 else (charIndexOf r cs).map (· + 1)

/-- `rankValue` of the source: position in `RANK_ORDER`, `999` when absent. -/
def rankValue (r : Char) : Nat :=
  match charIndexOf r RANK_ORDER with
  | some i => i
  | none => 999

/-- `buildDeck`: `deckCount` concatenated 52-card sets, suits outer, ranks inner. -/
def buildDeck (deckCount : Nat) : List Card :=
  (List.range deckCount).flatMap fun _ =>
    SUITS.flatMap fun s => RANKS.map fun r => ⟨r, s⟩

/-- Swap the entries at positions `i` and `j` (identity when either is out of
range), the primitive step of the Fisher-Yates loop. -/
def listSwap (l : List Card) (i j : Nat) : List Card :=
  match l.get? i, l.get? j with
  | some a, some b => (l.set i b).set j a
  | _, _ => l

/-- `shuffleArray`: Fisher-Yates over a copy; the random draw for index `i`
is `seeds i % (i + 1)`, matching `Math.floor(Math.random() * (i + 1))`. -/
def fisherYates (seeds : Nat → Nat) : Nat → List Card → List Card
  | 0, l => l
  | i + 1, l => fisherYates seeds i (listSwap l (i + 1) (seeds (i + 1) % (i + 2)))

def shuffleArray (seeds : Nat → Nat) (l : List Card) : List Card :=
  fisherYates seeds (l.length - 1) l

/-- The slice sizes of `distributeEvenly`: player `p` (0-based) receives
`floor (total / n)` cards plus one when `p < total % n`. -/
def sliceCounts (total n : Nat) : List Nat :=
  (List.range n).map fun p => total / n + (if p < total % n then 1 else 0)

def takeSlices : List Nat → List Card → List (List Card)
  | [], _ => []
  | c :: cs, d => d.take c :: takeSlices cs (d.drop c)

/-- `distributeEvenly`: split the deck into `n` contiguous slices, the first
`total % n` slices one card larger. -/
def distributeEvenly (deck : List Card) (n : Nat) : List (List Card) :=
  takeSlices (sliceCounts deck.length n) deck

/-- One `gamePlayers` row: a seat with its hand (rows are keyed by `userId`,
which is unique per game). -/
structure GP where
  userId : UserId
  seatIndex : Nat
  hand : List Card
deriving DecidableEq, Repr

inductive Phase
  | play
  | round_ended
  | exchange
deriving DecidableEq, Repr

/-- One exchange obligation: a directed pair with an exact card count. -/
structure ExchangePair where
  fromUserId : UserId
  toUserId : UserId
  count : Nat
deriving DecidableEq, Repr

/-- One submitted exchange selection, keyed by the giving user. -/
structure ExchangeSel where
  fromUserId : UserId
  cardIds : List Card
deriving DecidableEq, Repr

/-- The `gameStates` row. -/
structure GS where
  currentTurnUserId : Option UserId
  turnNumber : Nat
  turnStartedAt : Nat
  discardPile : List Card
  phase : Phase
  lastPlayedCount : Nat
  lastPlayedRank : Option Char
  lastPlayedBy : Option UserId
  passedUserIds : List UserId
  finishedOrder : List UserId
  roundLoserId : Option UserId
  exchangePairs : List ExchangePair
  exchangeSelections : List ExchangeSel
  roundLeaderId : Option UserId
deriving DecidableEq, Repr

/-- The portion of the database one game's mutations read and write. -/
structure DB where
  players : List GP
  state : GS
deriving DecidableEq, Repr

/-- Stable insertion of a row into a seat-sorted list (ties keep input order,
like the stable `Array.prototype.sort`). -/
def insertBySeat (p : GP) : List GP → List GP
  | [] => [p]
  | q :: qs => if p.seatIndex < q.seatIndex then p :: q :: qs else q :: insertBySeat p qs

/-- `[...gamePlayers].sort((a, b) => a.seatIndex - b.seatIndex)`. -/
def sortBySeat : List GP → List GP
  | [] => []
  | p :: ps => insertBySeat p (sortBySeat ps)

/-- `findIndex((p) => p.userId === currentUserId)`. -/
def findUserIdx (uid : UserId) : List GP → Option Nat
  | [] => none
  | p :: ps => if p.userId = uid then some 0 else (findUserIdx uid ps).map (· + 1)

/-- The rotation search of `getNextPlayerToPlay`: try offsets `is` in order,
returning the first seat that is not the current player, has not passed and
is not skipped. -/
def eligibleSearch (sorted : List GP) (idx : Nat) (current : UserId)
    (passed skips : List UserId) : List Nat → Option UserId
  | [] => none
  | i :: is =>
    match sorted.get? ((idx + i) % sorted.length) with
    | none => eligibleSearch sorted idx current passed skips is
    | some next =>
      if next.userId ≠ current ∧ next.userId ∉ passed ∧ next.userId ∉ skips then
        some next.userId
      else
        eligibleSearch sorted idx current passed skips is

/-- `getNextPlayerToPlay`: next seat in order who can play (not the current
player, not passed, not in the zero-card skip set); `none` when no one can.
(The source's `idx < 0` branch reads `sorted[0]`, which only exists on a
nonempty list; handlers always call this with the acting player present.) -/
def getNextPlayerToPlay (players : List GP) (current : UserId)
    (passed skips : List UserId) : Option UserId :=
  let sorted := sortBySeat players
  match findUserIdx current sorted with
  | none => sorted.head?.map GP.userId
  | some idx => eligibleSearch sorted idx current passed skips (List.range' 1 (sorted.length - 1))

/-- The exception-plus-state monad the handlers run in: an error carries the
database as it stands at the throw site, so partial writes would be visible. -/
def M (α : Type) : Type := DB → Except String α × DB

def M.pure (a : α) : M α := fun db => (Except.ok a, db)

def M.bind (x : M α) (f : α → M β) : M β := fun db =>
  match x db with
  | (Except.ok a, db1) => f a db1
  | (Except.error e, db1) => (Except.error e, db1)

instance : Monad M where
  pure := M.pure
  bind := M.bind

def M.throw (e : String) : M α := fun db => (Except.error e, db)

def M.getDb : M DB := fun db => (Except.ok db, db)

/-- A `ctx.db.patch` write. -/
def M.patch (f : DB → DB) : M Unit := fun db => (Except.ok (), f db)

@[simp] theorem M.bind_eq (x : M α) (f : α → M β) : x >>= f = M.bind x f := rfl

@[simp] theorem M.pure_eq (a : α) : (Pure.pure a : M α) = M.pure a := rfl

@[simp] theorem M.pure_bind (a : α) (f : α → M β) (db : DB) :
    M.bind (M.pure a) f db = f a db := rfl

@[simp] theorem M.getDb_bind (f : DB → M β) (db : DB) :
    M.bind M.getDb f db = f db db := rfl

@[simp] theorem M.throw_bind (e : String) (f : α → M β) (db : DB) :
    M.bind (M.throw e) f db = (Except.error e, db) := rfl

@[simp] theorem M.patch_bind (g : DB → DB) (f : Unit → M β) (db : DB) :
    M.bind (M.patch g) f db = f () (g db) := rfl

@[simp] theorem M.ite_bind (c : Prop) [Decidable c] (x y : M α) (f : α → M β) (db : DB) :
    M.bind (if c then x else y) f db = if c then M.bind x f db else M.bind y f db := by
  split <;> rfl

@[simp] theorem M.throw_app (e : String) (db : DB) :
    (M.throw e : M α) db = (Except.error e, db) := rfl

@[simp] theorem M.ite_app (c : Prop) [Decidable c] (x y : M α) (db : DB) :
    (if c then x else y) db = if c then x db else y db := by
  split <;> rfl

@[simp] theorem M.pure_app (a : α) (db : DB) : (M.pure a : M α) db = (Except.ok a, db) := rfl

@[simp] theorem M.patch_app (g : DB → DB) (db : DB) :
    M.patch g db = (Except.ok (), g db) := rfl

/-- Branch on a looked-up value (the `const x = ...; if (!x) throw` pattern). -/
def M.optCase (o : Option γ) (onNone : M β) (onSome : γ → M β) : M β := fun db =>
  match o with
  | none => onNone db
  | some x => onSome x db

@[simp] theorem M.optCase_app (o : Option γ) (onNone : M β) (onSome : γ → M β) (db : DB) :
    M.optCase o onNone onSome db =
      match o with
      | none => onNone db
      | some x => onSome x db := rfl

@[simp] theorem M.optCase_none (onNone : M β) (onSome : γ → M β) :
    M.optCase none onNone onSome = onNone := rfl

@[simp] theorem M.optCase_some (x : γ) (onNone : M β) (onSome : γ → M β) :
    M.optCase (some x) onNone onSome = onSome x := rfl

/-- `rankValue` applied to a possibly-absent rank (`indexOf` on `null` gives
`-1`, hence `999`). -/
def rankValueOpt : Option Char → Nat
  | some r => rankValue r
  | none => 999

/-- The splice-by-indexOf loop of `playCards`: each selected id removes one
copy from the hand, and a missing id fails ("Card not in hand"). -/
def removeSeq (hand : List Card) : List Card → Option (List Card)
  | [] => some hand
  | c :: cs => if c ∈ hand then removeSeq (hand.erase c) cs else none

/-- `[...new Set(xs)]`: deduplicate keeping first occurrences. -/
def firstDedup : List Char → List Char
  | [] => []
  | c :: cs => c :: (firstDedup cs).filter fun x => x != c

/-- `ctx.db.patch(gp._id, { hand })`: replace the hand of the (unique) row
with this user id. -/
def patchHand : List GP → UserId → List Card → List GP
  | [], _, _ => []
  | p :: ps, uid, h =>
    if p.userId = uid then { p with hand := h } :: ps else p :: patchHand ps uid h

/-- The post-validation `gameStates` update of `playCards` (lines 358-406 of
the source): discard grows by the played cards, a just-emptied hand joins the
finish order, the next seat is computed skipping passed and zero-card seats,
and round end fires when the actor finished and exactly one seat still holds
cards.  All reads are from the pre-play rows, with the actor's hand replaced
by `newHand` (the source's `p._id === gp._id ? newHand.length : ...`). -/
def playNewGS (db : DB) (gp : GP) (newHand cardIds : List Card) (playRank : Char)
    (uid : UserId) (now : Nat) : GS :=
  let gs := db.state
  let passedUserIds := gs.passedUserIds
  let discardPile := gs.discardPile ++ cardIds
  let finishedOrder :=
    if newHand.length = 0 ∧ uid ∉ gs.finishedOrder then
      gs.finishedOrder ++ [uid]
    else gs.finishedOrder
  let playerJustFinished := newHand.length = 0
  let zeroCardUserIds := (db.players.filter fun p =>
    (if p.userId == gp.userId then newHand.length else p.hand.length) == 0).map GP.userId
  let nextUserIdRaw := getNextPlayerToPlay db.players uid passedUserIds zeroCardUserIds
  let samePlayerLeadsAgain := nextUserIdRaw = none
  let nextUserId := some (nextUserIdRaw.getD uid)
  let playersWithCards := ((db.players.map fun p =>
    if p.userId == gp.userId then newHand.length else p.hand.length).filter
      fun c => 0 < c).length
  let onlyOneHasCards := playersWithCards = 1
  if playerJustFinished ∧ onlyOneHasCards then
    let roundLoserId := (db.players.find? fun p =>
      0 < (if p.userId == gp.userId then newHand.length else p.hand.length)).map GP.userId
    let finishedOrderWithLoser :=
      match roundLoserId with
      | some l => finishedOrder ++ [l]
      | none => finishedOrder
    { gs with
      phase := Phase.round_ended
      finishedOrder := finishedOrderWithLoser
      roundLoserId := roundLoserId
      currentTurnUserId := nextUserId
      discardPile := discardPile
      lastPlayedCount := 0
      lastPlayedRank := none
      lastPlayedBy := none
      turnNumber := gs.turnNumber + 1
      turnStartedAt := now }
  else
    let clearTable := playerJustFinished ∨ samePlayerLeadsAgain
    { gs with
      currentTurnUserId := nextUserId
      lastPlayedCount := if clearTable then 0 else cardIds.length
      lastPlayedRank := if clearTable then none else some playRank
      lastPlayedBy := if clearTable then none else some uid
      discardPile := if clearTable then [] else discardPile
      turnNumber := gs.turnNumber + 1
      turnStartedAt := now
      passedUserIds :=
        if samePlayerLeadsAgain ∨ playerJustFinished then [] else gs.passedUserIds
      finishedOrder :=
        if 0 < finishedOrder.length then finishedOrder else gs.finishedOrder }

/-- The `playCards` mutation (identity lookups resolved; `uid` is the caller). -/
def playCardsM (uid : UserId) (cardIds : List Card) (now : Nat) : M Unit :=
  if cardIds.length = 0 then
    M.throw "Select at least one card to play"
  else do
    let db ← M.getDb
    let gs := db.state
    if gs.phase = Phase.exchange then
      M.throw "Complete the card exchange first"
    else if gs.phase = Phase.round_ended then
      M.throw "Round has ended; wait for the host to restart"
    else if gs.currentTurnUserId ≠ some uid then
      M.throw "Not your turn"
    else
      M.optCase (db.players.find? fun p => p.userId == uid)
        (M.throw "You are not in this game") fun gp =>
      M.optCase (removeSeq gp.hand cardIds)
        (M.throw "Card not in hand") fun newHand =>
          let ranks := cardIds.map Card.rank
          let twos := ranks.filter fun r => r == '2'
          let nonTwos := ranks.filter fun r => r != '2'
          if twos.length = cardIds.length then
            M.throw "2 cannot be played alone (joker must go with another rank)"
          else if 1 < (firstDedup nonTwos).length then
            M.throw "Play same rank only (2 counts as joker)"
          else
            let playRank := (firstDedup nonTwos).headD '2'
            let lastCount := gs.lastPlayedCount
            let lastRank := gs.lastPlayedRank
            if 0 < lastCount ∧ cardIds.length < lastCount then
              M.throw "Play at least lastCount card(s)"
            else if 0 < lastCount ∧ rankValue playRank > rankValueOpt lastRank then
              M.throw "Play same or higher rank"
            else do
              M.patch fun d => { d with players := patchHand d.players uid newHand }
              M.patch fun d => { d with state := playNewGS db gp newHand cardIds playRank uid now }

/-- The `pass` mutation (identity lookups resolved; `uid` is the caller). -/
def passM (uid : UserId) (now : Nat) : M Unit := do
  let db ← M.getDb
  let gs := db.state
  if gs.phase = Phase.exchange then
    M.throw "Complete the card exchange first"
  else if gs.phase = Phase.round_ended then
    M.throw "Round has ended; wait for the host to restart"
  else if gs.currentTurnUserId ≠ some uid then
    M.throw "Not your turn"
  else if gs.lastPlayedCount = 0 then
    M.throw "You must lead; you cannot pass"
  else
    let passedUserIds := gs.passedUserIds ++ [uid]
    let lastPlayedBy := gs.lastPlayedBy
    let numPlayers := db.players.length
    let zeroCardUserIds := (db.players.filter fun p => p.hand.length == 0).map GP.userId
    let nextUserId := getNextPlayerToPlay db.players uid passedUserIds zeroCardUserIds
    if nextUserId = none then
      -- Everyone passed: fall back to lastPlayedBy leading
      M.patch fun d => { d with state := { gs with
        currentTurnUserId := lastPlayedBy
        lastPlayedCount := 0
        lastPlayedRank := none
        lastPlayedBy := none
        passedUserIds := []
        turnNumber := gs.turnNumber + 1
        turnStartedAt := now } }
    else if lastPlayedBy ≠ none ∧ nextUserId = lastPlayedBy ∧ passedUserIds.length ≥ numPlayers - 1 then
      M.patch fun d => { d with state := { gs with
        currentTurnUserId := lastPlayedBy
        lastPlayedCount := 0
        lastPlayedRank := none
        lastPlayedBy := none
        passedUserIds := []
        turnNumber := gs.turnNumber + 1
        turnStartedAt := now } }
    else
      M.patch fun d => { d with state := { gs with
        currentTurnUserId := nextUserId
        passedUserIds := passedUserIds
        turnNumber := gs.turnNumber + 1
        turnStartedAt := now } }

/-- `ctx.db.patch(gp._id, { seatIndex: i, hand })` of the restart loop. -/
def patchSeatHand : List GP → UserId → Nat → List Card → List GP
  | [], _, _, _ => []
  | p :: ps, uid, seat, h =>
    if p.userId = uid then { p with seatIndex := seat, hand := h } :: ps
    else p :: patchSeatHand ps uid seat h

/-- JS `Map` over user ids: `set` overwrites the existing key, `get` finds it. -/
def mapSet (m : List (UserId × List Card)) (k : UserId) (v : List Card) :
    List (UserId × List Card) :=
  if m.any fun e => e.1 == k then m.map fun e => if e.1 == k then (k, v) else e
  else m ++ [(k, v)]

def mapGetHands (m : List (UserId × List Card)) (k : UserId) : Option (List Card) :=
  (m.find? fun e => e.1 == k).map Prod.snd

/-- `new Map(entries)`: later entries overwrite earlier ones. -/
def handsMapOf (players : List GP) : List (UserId × List Card) :=
  players.foldl (fun m p => mapSet m p.userId p.hand) []

/-- `new Map(sortedPlayers.map((p, i) => [p.userId, i]))` looked up at `k`
(later entries overwrite earlier ones). -/
def seatIdxOf (sorted : List GP) (k : UserId) : Option Nat :=
  ((sorted.enum.map fun e => (e.2.userId, e.1)).reverse.find? fun e => e.1 == k).map Prod.snd

/-- `firstLeaderId`: the head of the finish order, or the first seat when the
finish order is empty. -/
def restartLeader (gamePlayers : List GP) (finishedOrder : List UserId) : Option UserId :=
  if 0 < finishedOrder.length then finishedOrder.head?
  else (sortBySeat gamePlayers).head?.map GP.userId

/-- The exchange-pair table of `restartRound`: with a complete finish order,
2-3 players swap winner and loser 1 card each; with 4 or more, first and last
swap 2 each and second and second-last swap 1 each; otherwise no pairs. -/
def restartPairs (n : Nat) (finishedOrder : List UserId) : List ExchangePair :=
  if n ≤ finishedOrder.length then
    if n = 2 ∨ n = 3 then
      [ ⟨finishedOrder.getD (n - 1) 0, finishedOrder.getD 0 0, 1⟩,
        ⟨finishedOrder.getD 0 0, finishedOrder.getD (n - 1) 0, 1⟩ ]
    else if 4 ≤ n then
      [ ⟨finishedOrder.getD 0 0, finishedOrder.getD (n - 1) 0, 2⟩,
        ⟨finishedOrder.getD (n - 1) 0, finishedOrder.getD 0 0, 2⟩,
        ⟨finishedOrder.getD 1 0, finishedOrder.getD (n - 2) 0, 1⟩,
        ⟨finishedOrder.getD (n - 2) 0, finishedOrder.getD 1 0, 1⟩ ]
    else []
  else []

/-- The reseat-and-redeal loop of `restartRound`: hands distributed from the
reshuffled pool; with a complete finish order the seats are reassigned in
finish order (winner first), otherwise by prior seat order. -/
def restartDealtPlayers (gamePlayers : List GP) (finishedOrder : List UserId)
    (shuffled : List Card) : List GP :=
  let n := gamePlayers.length
  let hands := distributeEvenly shuffled n
  let sortedPlayers := sortBySeat gamePlayers
  let newHandsByOrder :=
    if finishedOrder.length = n then
      finishedOrder.map fun u =>
        match seatIdxOf sortedPlayers u with
        | some i => hands.getD i []
        | none => []
    else hands
  (List.range n).foldl (fun acc i =>
    let userId? :=
      if finishedOrder.length = n then finishedOrder.get? i
      else (sortedPlayers.get? i).map GP.userId
    match userId? with
    | none => acc
    | some u =>
      let hand :=
        if finishedOrder.length = n then newHandsByOrder.getD i []
        else hands.getD i []
      patchSeatHand acc u i hand) gamePlayers

/-- The `restartRound` mutation (identity lookups and the admin check are
resolved externally; `seeds` drives the shuffle, `now` is `Date.now()`). -/
def restartRoundM (now : Nat) (seeds : Nat → Nat) : M Unit := do
  let db ← M.getDb
  let gs := db.state
  if gs.phase ≠ Phase.round_ended then
    M.throw "Round has not ended"
  else
    let gamePlayers := db.players
    let finishedOrder := gs.finishedOrder
    let n := gamePlayers.length
    let firstLeaderId := restartLeader gamePlayers finishedOrder
    let allCards := gamePlayers.flatMap GP.hand ++ gs.discardPile
    let shuffled := shuffleArray seeds allCards
    M.patch fun d => { d with players := restartDealtPlayers gamePlayers finishedOrder shuffled }
    let exchangePairs := restartPairs n finishedOrder
    M.patch fun d => { d with state := { gs with
      phase := if 0 < exchangePairs.length then Phase.exchange else Phase.play
      currentTurnUserId := firstLeaderId
      turnNumber := gs.turnNumber + 1
      turnStartedAt := now
      discardPile := []
      lastPlayedCount := 0
      lastPlayedRank := none
      lastPlayedBy := none
      passedUserIds := []
      finishedOrder := []
      roundLoserId := none
      exchangePairs := exchangePairs
      exchangeSelections := []
      roundLeaderId := if 0 < exchangePairs.length then firstLeaderId else none } }

/-- The atomic multi-party swap of exchange completion: starting from the
map of all hands, each satisfied pair removes every copy matching the giver's
selected ids from the giver's hand (a `Set`-based filter) and appends the
selection to the receiver's hand. -/
def exchangeFinalMap (players : List GP) (exchangePairs : List ExchangePair)
    (newSelections : List ExchangeSel) : List (UserId × List Card) :=
  exchangePairs.foldl (fun m p =>
    match newSelections.find? fun s => s.fromUserId == p.fromUserId with
    | none => m
    | some sel =>
      if sel.cardIds.length ≠ p.count then m
      else
        let fromHand := (mapGetHands m p.fromUserId).getD []
        let toHand := (mapGetHands m p.toUserId).getD []
        let m1 := mapSet m p.fromUserId
          (fromHand.filter fun c => ¬ sel.cardIds.contains c)
        mapSet m1 p.toUserId (toHand ++ sel.cardIds)) (handsMapOf players)

/-- The `submitExchangeSelection` mutation (identity lookups resolved). -/
def submitExchangeSelectionM (uid : UserId) (cardIds : List Card) (now : Nat) : M Unit := do
  let db ← M.getDb
  let gs := db.state
  if gs.phase ≠ Phase.exchange then
    M.throw "Not in exchange phase"
  else
    let exchangePairs := gs.exchangePairs
    M.optCase (exchangePairs.find? fun p => p.fromUserId == uid)
      (M.throw "You are not giving cards in this exchange") fun myPair =>
      if cardIds.length ≠ myPair.count then
        M.throw "Select exactly count card(s) to give"
      else
        M.optCase (db.players.find? fun p => p.userId == uid)
          (M.throw "You are not in this game") fun gp =>
          if ¬ (cardIds.all fun c => gp.hand.contains c) then
            M.throw "Selected card not in your hand"
          else
            let withoutMe := gs.exchangeSelections.filter fun s => s.fromUserId != uid
            let newSelections := withoutMe ++ [⟨uid, cardIds⟩]
            let allIn := exchangePairs.all fun p =>
              match newSelections.find? fun s => s.fromUserId == p.fromUserId with
              | some sel => sel.cardIds.length == p.count
              | none => false
            if allIn then
              let finalMap := exchangeFinalMap db.players exchangePairs newSelections
              M.patch (fun d => { d with players := d.players.map fun q =>
                { q with hand := (mapGetHands finalMap q.userId).getD q.hand } }) >>= fun _ =>
              M.patch fun d => { d with state := { gs with
                phase := Phase.play
                currentTurnUserId := gs.roundLeaderId
                turnNumber := gs.turnNumber + 1
                turnStartedAt := now
                exchangePairs := []
                exchangeSelections := []
                roundLeaderId := none } }
            else
              M.patch fun d => { d with state := { gs with exchangeSelections := newSelections } }

/-- C10 — Every accepted pass leaves every hand and the discard pile
unchanged: in all three outcome branches only the turn fields, the
standing-play descriptor and the passed set of the round state are written. -/
theorem passM_preserves (uid : UserId) (now : Nat) (db : DB) :
    (passM uid now db).2.players = db.players ∧
    (passM uid now db).2.state.discardPile = db.state.discardPile ∧
    (passM uid now db).2.state.phase = db.state.phase ∧
    (passM uid now db).2.state.finishedOrder = db.state.finishedOrder ∧
    (passM uid now db).2.state.roundLoserId = db.state.roundLoserId ∧
    (passM uid now db).2.state.exchangePairs = db.state.exchangePairs ∧
    (passM uid now db).2.state.exchangeSelections = db.state.exchangeSelections ∧
    (passM uid now db).2.state.roundLeaderId = db.state.roundLeaderId := by
  unfold passM
  simp only [M.bind_eq, M.getDb_bind]
  split_ifs <;> simp

theorem playCardsM_ok_or_frame (uid : UserId) (cardIds : List Card) (now : Nat) (db : DB) :
    (playCardsM uid cardIds now db).1 = Except.ok () ∨ (playCardsM uid cardIds now db).2 = db := by
  unfold playCardsM
  simp only [M.bind_eq, M.getDb_bind, M.optCase_app, M.patch_bind, M.throw_app, M.ite_app]
  repeat'
    first
      | exact Or.inl rfl
      | exact Or.inr rfl
      | split_ifs
      | split

theorem passM_ok_or_frame (uid : UserId) (now : Nat) (db : DB) :
    (passM uid now db).1 = Except.ok () ∨ (passM uid now db).2 = db := by
  unfold passM
  simp only [M.bind_eq, M.getDb_bind]
  split_ifs <;> simp

theorem restartRoundM_ok_or_frame (now : Nat) (seeds : Nat → Nat) (db : DB) :
    (restartRoundM now seeds db).1 = Except.ok () ∨ (restartRoundM now seeds db).2 = db := by
  unfold restartRoundM
  simp only [M.bind_eq, M.getDb_bind, M.patch_bind]
  split_ifs <;> simp

theorem submitExchangeSelectionM_ok_or_frame (uid : UserId) (cardIds : List Card)
    (now : Nat) (db : DB) :
    (submitExchangeSelectionM uid cardIds now db).1 = Except.ok () ∨
    (submitExchangeSelectionM uid cardIds now db).2 = db := by
  unfold submitExchangeSelectionM
  simp only [M.bind_eq, M.getDb_bind, M.optCase_app, M.patch_bind, M.throw_app, M.ite_app]
  repeat'
    first
      | exact Or.inl rfl
      | exact Or.inr rfl
      | split_ifs
      | split

theorem pass_frame (uid : UserId) (now : Nat) (db : DB)
    (hok : (passM uid now db).1 = Except.ok ()) :
    (passM uid now db).2.players = db.players ∧
    (passM uid now db).2.state.discardPile = db.state.discardPile ∧
    (passM uid now db).2.state.phase = db.state.phase ∧
    (passM uid now db).2.state.finishedOrder = db.state.finishedOrder ∧
    (passM uid now db).2.state.roundLoserId = db.state.roundLoserId ∧
    (passM uid now db).2.state.exchangePairs = db.state.exchangePairs ∧
    (passM uid now db).2.state.exchangeSelections = db.state.exchangeSelections ∧
    (passM uid now db).2.state.roundLeaderId = db.state.roundLeaderId :=
  passM_preserves uid now db

/-- C9 — Every rejected request is a synchronous rejection with no partial
state mutation: on any rejection the player rows and the round-state record
are exactly unchanged. -/
theorem rejection_leaves_state_unchanged (uid : UserId) (cardIds : List Card)
    (now : Nat) (seeds : Nat → Nat) (db : DB) :
    (∀ e, (playCardsM uid cardIds now db).1 = Except.error e →
      (playCardsM uid cardIds now db).2 = db) ∧
    (∀ e, (passM uid now db).1 = Except.error e → (passM uid now db).2 = db) ∧
    (∀ e, (restartRoundM now seeds db).1 = Except.error e →
      (restartRoundM now seeds db).2 = db) ∧
    (∀ e, (submitExchangeSelectionM uid cardIds now db).1 = Except.error e →
      (submitExchangeSelectionM uid cardIds now db).2 = db) := by
  refine ⟨fun e h => ?_, fun e h => ?_, fun e h => ?_, fun e h => ?_⟩
  · exact (playCardsM_ok_or_frame uid cardIds now db).resolve_left
      (fun hc => by rw [hc] at h; exact Except.noConfusion h)
  · exact (passM_ok_or_frame uid now db).resolve_left
      (fun hc => by rw [hc] at h; exact Except.noConfusion h)
  · exact (restartRoundM_ok_or_frame now seeds db).resolve_left
      (fun hc => by rw [hc] at h; exact Except.noConfusion h)
  · exact (submitExchangeSelectionM_ok_or_frame uid cardIds now db).resolve_left
      (fun hc => by rw [hc] at h; exact Except.noConfusion h)

/-- A state in phase `play` where user 1 is not on turn: all four mutations
reject (restart because the round has not ended, exchange submission because
the phase is wrong). -/
def dbReject : DB := {
  players := [⟨1, 0, [⟨'A', 'S'⟩]⟩]
  state := {
    currentTurnUserId := some 99
    turnNumber := 3
    turnStartedAt := 0
    discardPile := []
    phase := Phase.play
    lastPlayedCount := 1
    lastPlayedRank := some '7'
    lastPlayedBy := some 99
    passedUserIds := []
    finishedOrder := []
    roundLoserId := none
    exchangePairs := []
    exchangeSelections := []
    roundLeaderId := none } }

theorem rejection_leaves_state_unchanged_witness :
    (playCardsM 1 [⟨'A', 'S'⟩] 5 dbReject).1 = Except.error "Not your turn" ∧
    (playCardsM 1 [⟨'A', 'S'⟩] 5 dbReject).2 = dbReject ∧
    (passM 1 5 dbReject).2 = dbReject ∧
    (restartRoundM 5 (fun _ => 0) dbReject).2 = dbReject ∧
    (submitExchangeSelectionM 1 [⟨'A', 'S'⟩] 5 dbReject).2 = dbReject :=
  ⟨by decide,
   (rejection_leaves_state_unchanged 1 [⟨'A', 'S'⟩] 5 (fun _ => 0) dbReject).1
     "Not your turn" (by decide),
   (rejection_leaves_state_unchanged 1 [⟨'A', 'S'⟩] 5 (fun _ => 0) dbReject).2.1
     "Not your turn" (by decide),
   (rejection_leaves_state_unchanged 1 [⟨'A', 'S'⟩] 5 (fun _ => 0) dbReject).2.2.1
     "Round has not ended" (by decide),
   (rejection_leaves_state_unchanged 1 [⟨'A', 'S'⟩] 5 (fun _ => 0) dbReject).2.2.2
     "Not in exchange phase" (by decide)⟩

/-- A state where user 2 holds the turn against a standing play by user 1,
so user 2's pass is accepted. -/
def dbPassAccept : DB := {
  players := [
    ⟨1, 0, [⟨'3', 'C'⟩]⟩,
    ⟨2, 1, [⟨'7', 'S'⟩, ⟨'4', 'H'⟩]⟩,
    ⟨3, 2, [⟨'K', 'S'⟩, ⟨'9', 'D'⟩]⟩ ]
  state := {
    currentTurnUserId := some 2
    turnNumber := 10
    turnStartedAt := 0
    discardPile := [⟨'5', 'S'⟩, ⟨'5', 'H'⟩]
    phase := Phase.play
    lastPlayedCount := 2
    lastPlayedRank := some '5'
    lastPlayedBy := some 1
    passedUserIds := []
    finishedOrder := []
    roundLoserId := none
    exchangePairs := []
    exchangeSelections := []
    roundLeaderId := none } }

theorem pass_frame_witness :
    (passM 2 7 dbPassAccept).1 = Except.ok () ∧
    (passM 2 7 dbPassAccept).2.players = dbPassAccept.players ∧
    (passM 2 7 dbPassAccept).2.state.discardPile = dbPassAccept.state.discardPile :=
  ⟨by decide, (pass_frame 2 7 dbPassAccept (by decide)).1,
   (pass_frame 2 7 dbPassAccept (by decide)).2.1⟩

theorem playNewGS_turnNumber (db : DB) (gp : GP) (nh cids : List Card) (pr : Char)
    (uid : UserId) (now : Nat) :
    (playNewGS db gp nh cids pr uid now).turnNumber = db.state.turnNumber + 1 := by
  simp only [playNewGS]
  split_ifs <;> rfl

theorem playCardsM_turn_or (uid : UserId) (cids : List Card) (now : Nat) (db : DB) :
    ¬ (playCardsM uid cids now db).1 = Except.ok () ∨
    (playCardsM uid cids now db).2.state.turnNumber = db.state.turnNumber + 1 := by
  unfold playCardsM
  simp only [M.bind_eq, M.getDb_bind, M.optCase_app, M.patch_bind, M.throw_app, M.ite_app]
  repeat'
    first
      | exact Or.inr rfl
      | exact Or.inr (playNewGS_turnNumber _ _ _ _ _ _ _)
      | (refine Or.inl ?_; simp; done)
      | split_ifs
      | split

theorem playCardsM_ok_turn (uid : UserId) (cids : List Card) (now : Nat) (db : DB) :
    (playCardsM uid cids now db).1 = Except.ok () →
    (playCardsM uid cids now db).2.state.turnNumber = db.state.turnNumber + 1 :=
  fun h => (playCardsM_turn_or uid cids now db).resolve_left (not_not_intro h)

theorem passM_turn_or (uid : UserId) (now : Nat) (db : DB) :
    ¬ (passM uid now db).1 = Except.ok () ∨
    (passM uid now db).2.state.turnNumber = db.state.turnNumber + 1 := by
  unfold passM
  simp only [M.bind_eq, M.getDb_bind, M.throw_app, M.ite_app]
  repeat'
    first
      | exact Or.inr rfl
      | (refine Or.inl ?_; simp; done)
      | split_ifs

theorem passM_ok_turn (uid : UserId) (now : Nat) (db : DB) :
    (passM uid now db).1 = Except.ok () →
    (passM uid now db).2.state.turnNumber = db.state.turnNumber + 1 :=
  fun h => (passM_turn_or uid now db).resolve_left (not_not_intro h)

theorem restartRoundM_turn_or (now : Nat) (seeds : Nat → Nat) (db : DB) :
    ¬ (restartRoundM now seeds db).1 = Except.ok () ∨
    (restartRoundM now seeds db).2.state.turnNumber = db.state.turnNumber + 1 := by
  unfold restartRoundM
  simp only [M.bind_eq, M.getDb_bind, M.patch_bind, M.throw_app, M.ite_app]
  repeat'
    first
      | exact Or.inr rfl
      | (refine Or.inl ?_; simp; done)
      | split_ifs

theorem restartRoundM_ok_turn (now : Nat) (seeds : Nat → Nat) (db : DB) :
    (restartRoundM now seeds db).1 = Except.ok () →
    (restartRoundM now seeds db).2.state.turnNumber = db.state.turnNumber + 1 :=
  fun h => (restartRoundM_turn_or now seeds db).resolve_left (not_not_intro h)

theorem submitExchangeSelectionM_turn_or (uid : UserId) (cids : List Card)
    (now : Nat) (db : DB) :
    ¬ (submitExchangeSelectionM uid cids now db).1 = Except.ok () ∨
    ((submitExchangeSelectionM uid cids now db).2.state.phase = Phase.play ∧
      (submitExchangeSelectionM uid cids now db).2.state.turnNumber =
        db.state.turnNumber + 1) ∨
    ((submitExchangeSelectionM uid cids now db).2.state.phase = Phase.exchange ∧
      (submitExchangeSelectionM uid cids now db).2.state.turnNumber =
        db.state.turnNumber) := by
  unfold submitExchangeSelectionM
  simp only [M.bind_eq, M.getDb_bind, M.optCase_app, M.patch_bind, M.throw_app, M.ite_app]
  repeat'
    first
      | exact Or.inr (Or.inl ⟨rfl, rfl⟩)
      | (refine Or.inl ?_; simp; done)
      | split_ifs
      | split
      | simp_all

theorem submitExchangeSelectionM_ok_turn (uid : UserId) (cids : List Card)
    (now : Nat) (db : DB) :
    (submitExchangeSelectionM uid cids now db).1 = Except.ok () →
    ((submitExchangeSelectionM uid cids now db).2.state.phase = Phase.play ∧
      (submitExchangeSelectionM uid cids now db).2.state.turnNumber =
        db.state.turnNumber + 1) ∨
    ((submitExchangeSelectionM uid cids now db).2.state.phase = Phase.exchange ∧
      (submitExchangeSelectionM uid cids now db).2.state.turnNumber =
        db.state.turnNumber) :=
  fun h => (submitExchangeSelectionM_turn_or uid cids now db).resolve_left (not_not_intro h)

/-- C7 (amended) — The turn counter is monotonic: every accepted `playCards`,
`pass` and `restartRound` increments `turnNumber` by one, and an accepted
`submitExchangeSelection` increments it by one when it completes the exchange
(phase becomes `play`) but leaves it unchanged when obligations are still
outstanding (phase stays `exchange`). -/
theorem turn_increment_amended (uid : UserId) (cardIds : List Card) (now : Nat)
    (seeds : Nat → Nat) (db : DB) :
    ((playCardsM uid cardIds now db).1 = Except.ok () →
      (playCardsM uid cardIds now db).2.state.turnNumber = db.state.turnNumber + 1) ∧
    ((passM uid now db).1 = Except.ok () →
      (passM uid now db).2.state.turnNumber = db.state.turnNumber + 1) ∧
    ((restartRoundM now seeds db).1 = Except.ok () →
      (restartRoundM now seeds db).2.state.turnNumber = db.state.turnNumber + 1) ∧
    ((submitExchangeSelectionM uid cardIds now db).1 = Except.ok () →
      ((submitExchangeSelectionM uid cardIds now db).2.state.phase = Phase.play ∧
        (submitExchangeSelectionM uid cardIds now db).2.state.turnNumber =
          db.state.turnNumber + 1) ∨
      ((submitExchangeSelectionM uid cardIds now db).2.state.phase = Phase.exchange ∧
        (submitExchangeSelectionM uid cardIds now db).2.state.turnNumber =
          db.state.turnNumber)) :=
  ⟨playCardsM_ok_turn uid cardIds now db, passM_ok_turn uid now db,
   restartRoundM_ok_turn now seeds db, submitExchangeSelectionM_ok_turn uid cardIds now db⟩

/-- Like `dbPassAccept` but user 2 holds a pair of 7s, so playing them over
the standing pair of 5s is accepted. -/
def dbPlayAccept : DB := {
  players := [
    ⟨1, 0, [⟨'3', 'C'⟩]⟩,
    ⟨2, 1, [⟨'7', 'S'⟩, ⟨'7', 'H'⟩]⟩,
    ⟨3, 2, [⟨'K', 'S'⟩, ⟨'9', 'D'⟩]⟩ ]
  state := dbPassAccept.state }

/-- A `round_ended` state with a complete finish order `[2, 3, 1]`. -/
def dbRoundEnded : DB := {
  players := [
    ⟨1, 0, [⟨'5', 'S'⟩]⟩,
    ⟨2, 1, []⟩,
    ⟨3, 2, []⟩ ]
  state := {
    currentTurnUserId := some 2
    turnNumber := 10
    turnStartedAt := 0
    discardPile := [⟨'7', 'S'⟩, ⟨'4', 'H'⟩]
    phase := Phase.round_ended
    lastPlayedCount := 0
    lastPlayedRank := none
    lastPlayedBy := none
    passedUserIds := []
    finishedOrder := [2, 3, 1]
    roundLoserId := some 1
    exchangePairs := []
    exchangeSelections := []
    roundLeaderId := none } }

/-- An exchange-phase state with two outstanding obligations and no
selections submitted yet: user 1's submission is accepted but does not
complete the exchange. -/
def dbExchangePartial : DB := {
  players := [
    ⟨1, 0, [⟨'5', 'S'⟩, ⟨'3', 'C'⟩, ⟨'4', 'D'⟩]⟩,
    ⟨2, 1, [⟨'7', 'S'⟩, ⟨'4', 'H'⟩, ⟨'9', 'C'⟩]⟩ ]
  state := {
    currentTurnUserId := some 1
    turnNumber := 10
    turnStartedAt := 0
    discardPile := []
    phase := Phase.exchange
    lastPlayedCount := 0
    lastPlayedRank := none
    lastPlayedBy := none
    passedUserIds := []
    finishedOrder := []
    roundLoserId := none
    exchangePairs := [⟨1, 2, 2⟩, ⟨2, 1, 2⟩]
    exchangeSelections := []
    roundLeaderId := some 1 } }

/-- C7 counterexample — an accepted `submitExchangeSelection` that does not
complete the exchange leaves `turnNumber` unchanged, refuting "incremented by
every accepted action". -/
theorem turn_increment_counterexample :
    (submitExchangeSelectionM 1 [⟨'5', 'S'⟩, ⟨'3', 'C'⟩] 99 dbExchangePartial).1 =
      Except.ok () ∧
    ¬ ((submitExchangeSelectionM 1 [⟨'5', 'S'⟩, ⟨'3', 'C'⟩] 99 dbExchangePartial).2.state.turnNumber
        = dbExchangePartial.state.turnNumber + 1) := by
  decide

theorem turn_increment_amended_witness :
    (playCardsM 2 [⟨'7', 'S'⟩, ⟨'7', 'H'⟩] 9 dbPlayAccept).2.state.turnNumber =
      dbPlayAccept.state.turnNumber + 1 ∧
    (passM 2 9 dbPassAccept).2.state.turnNumber = dbPassAccept.state.turnNumber + 1 ∧
    (restartRoundM 9 (fun _ => 0) dbRoundEnded).2.state.turnNumber =
      dbRoundEnded.state.turnNumber + 1 ∧
    (((submitExchangeSelectionM 1 [⟨'5', 'S'⟩, ⟨'3', 'C'⟩] 9 dbExchangePartial).2.state.phase =
        Phase.play ∧
      (submitExchangeSelectionM 1 [⟨'5', 'S'⟩, ⟨'3', 'C'⟩] 9 dbExchangePartial).2.state.turnNumber =
        dbExchangePartial.state.turnNumber + 1) ∨
     ((submitExchangeSelectionM 1 [⟨'5', 'S'⟩, ⟨'3', 'C'⟩] 9 dbExchangePartial).2.state.phase =
        Phase.exchange ∧
      (submitExchangeSelectionM 1 [⟨'5', 'S'⟩, ⟨'3', 'C'⟩] 9 dbExchangePartial).2.state.turnNumber =
        dbExchangePartial.state.turnNumber)) :=
  ⟨(turn_increment_amended 2 [⟨'7', 'S'⟩, ⟨'7', 'H'⟩] 9 (fun _ => 0) dbPlayAccept).1 (by decide),
   (turn_increment_amended 2 [⟨'7', 'S'⟩, ⟨'7', 'H'⟩] 9 (fun _ => 0) dbPassAccept).2.1 (by decide),
   (turn_increment_amended 2 [⟨'7', 'S'⟩, ⟨'7', 'H'⟩] 9 (fun _ => 0) dbRoundEnded).2.2.1 (by decide),
   (turn_increment_amended 1 [⟨'5', 'S'⟩, ⟨'3', 'C'⟩] 9 (fun _ => 0) dbExchangePartial).2.2.2 (by decide)⟩

/-- Run characterization of an accepted `submitExchangeSelection`: under the
five validation facts the handler returns `ok` and the state is the
completion update or the selection-recording update according to `allIn`. -/
theorem submitExchange_run (uid : UserId) (cardIds : List Card) (now : Nat) (db : DB)
    (myPair : ExchangePair) (gp : GP)
    (hph : db.state.phase = Phase.exchange)
    (hpair : (db.state.exchangePairs.find? fun p => p.fromUserId == uid) = some myPair)
    (hcnt : cardIds.length = myPair.count)
    (hgp : (db.players.find? fun p => p.userId == uid) = some gp)
    (hhand : (cardIds.all fun c => gp.hand.contains c) = true) :
    submitExchangeSelectionM uid cardIds now db =
      (Except.ok (),
        if db.state.exchangePairs.all (fun p =>
          match (((db.state.exchangeSelections.filter fun s => s.fromUserId != uid) ++
              [ExchangeSel.mk uid cardIds]).find? fun s => s.fromUserId == p.fromUserId) with
          | some sel => sel.cardIds.length == p.count
          | none => false) then
          { players := db.players.map fun q =>
              { q with hand := (mapGetHands
                  (exchangeFinalMap db.players db.state.exchangePairs
                    ((db.state.exchangeSelections.filter fun s => s.fromUserId != uid) ++
                      [ExchangeSel.mk uid cardIds])) q.userId).getD q.hand }
            state := { db.state with
              phase := Phase.play
              currentTurnUserId := db.state.roundLeaderId
              turnNumber := db.state.turnNumber + 1
              turnStartedAt := now
              exchangePairs := []
              exchangeSelections := []
              roundLeaderId := none } }
        else
          { db with state := { db.state with exchangeSelections :=
              (db.state.exchangeSelections.filter fun s => s.fromUserId != uid) ++
                [ExchangeSel.mk uid cardIds] } }) := by
  unfold submitExchangeSelectionM
  simp only [M.bind_eq, M.getDb_bind, M.optCase_app, M.throw_app, M.ite_app, M.patch_app,
    M.patch_bind, hph, hpair, hcnt, hgp, hhand]
  simp only [ne_eq, not_true_eq_false, if_false, not_false_eq_true, if_true, ite_not]
  split <;> rfl

/-- An accepted `submitExchangeSelection` implies all five validation facts. -/
theorem submitExchange_ok_guards (uid : UserId) (cardIds : List Card) (now : Nat) (db : DB)
    (hok : (submitExchangeSelectionM uid cardIds now db).1 = Except.ok ()) :
    db.state.phase = Phase.exchange ∧
    ∃ myPair gp,
      (db.state.exchangePairs.find? fun p => p.fromUserId == uid) = some myPair ∧
      cardIds.length = myPair.count ∧
      (db.players.find? fun p => p.userId == uid) = some gp ∧
      (cardIds.all fun c => gp.hand.contains c) = true := by
  unfold submitExchangeSelectionM at hok
  simp only [M.bind_eq, M.getDb_bind, M.optCase_app, M.throw_app, M.ite_app, M.patch_app,
    M.patch_bind] at hok
  split_ifs at hok with hph hallin
  all_goals try (revert hok; simp; done)
  all_goals
    rcases hfind : (db.state.exchangePairs.find? fun p => p.fromUserId == uid) with _ | myPair
  all_goals simp only [hfind] at hok
  all_goals try (revert hok; simp; done)
  all_goals split_ifs at hok with hcnt
  all_goals try (revert hok; simp; done)
  all_goals
    rcases hgp : (db.players.find? fun p => p.userId == uid) with _ | gp
  all_goals simp only [hgp] at hok
  all_goals try (revert hok; simp; done)
  all_goals split_ifs at hok with hhand
  all_goals try (revert hok; simp; done)
  all_goals
    exact ⟨not_not.mp hph, myPair, gp, hfind, not_not.mp hcnt, hgp, hhand⟩

theorem filter_withoutMe (uid : UserId) (cardIds : List Card) (sels : List ExchangeSel) :
    ((sels.filter fun s => s.fromUserId != uid) ++ [ExchangeSel.mk uid cardIds]).filter
      (fun s => s.fromUserId != uid) = sels.filter fun s => s.fromUserId != uid := by
  simp [List.filter_append, List.filter_filter]

/-- C8 — Resubmitting an exchange selection before completion overwrites the
giver's prior recorded selection: if the giver's first submission is accepted
and does not complete the exchange, submitting the identical selection again
is accepted and leaves the state exactly as after the first submission. -/
theorem exchange_resubmit_idempotent (uid : UserId) (cardIds : List Card)
    (now now2 : Nat) (db : DB)
    (hok : (submitExchangeSelectionM uid cardIds now db).1 = Except.ok ())
    (hpart : (submitExchangeSelectionM uid cardIds now db).2.state.phase = Phase.exchange) :
    submitExchangeSelectionM uid cardIds now2 (submitExchangeSelectionM uid cardIds now db).2 =
      (Except.ok (), (submitExchangeSelectionM uid cardIds now db).2) := by
  obtain ⟨hph, myPair, gp, hfind, hcnt, hgp, hhand⟩ :=
    submitExchange_ok_guards uid cardIds now db hok
  rcases hallin : (db.state.exchangePairs.all fun p =>
      match (((db.state.exchangeSelections.filter fun s => s.fromUserId != uid) ++
          [ExchangeSel.mk uid cardIds]).find? fun s => s.fromUserId == p.fromUserId) with
      | some sel => sel.cardIds.length == p.count
      | none => false) with _ | _
  · -- non-completing resubmission: the recorded selection is overwritten in place
    rw [submitExchange_run uid cardIds now db myPair gp hph hfind hcnt hgp hhand]
    rw [submitExchange_run uid cardIds now db myPair gp hph hfind hcnt hgp hhand] at hpart
    simp only [hallin, Bool.false_eq_true, if_false] at hpart ⊢
    rw [submitExchange_run uid cardIds now2 _ myPair gp (by exact hph) (by exact hfind) hcnt
      (by exact hgp) (by exact hhand)]
    simp only [filter_withoutMe, hallin, Bool.false_eq_true, if_false]
  · -- completion contradicts the still-`exchange` phase
    rw [submitExchange_run uid cardIds now db myPair gp hph hfind hcnt hgp hhand] at hpart
    simp only [hallin, if_true] at hpart
    exact absurd hpart (by simp)

theorem exchange_resubmit_idempotent_witness :
    submitExchangeSelectionM 1 [⟨'5', 'S'⟩, ⟨'3', 'C'⟩] 11
        (submitExchangeSelectionM 1 [⟨'5', 'S'⟩, ⟨'3', 'C'⟩] 9 dbExchangePartial).2 =
      (Except.ok (), (submitExchangeSelectionM 1 [⟨'5', 'S'⟩, ⟨'3', 'C'⟩] 9 dbExchangePartial).2) :=
  exchange_resubmit_idempotent 1 [⟨'5', 'S'⟩, ⟨'3', 'C'⟩] 9 11 dbExchangePartial
    (by decide) (by decide)

/-- Run characterization of an accepted `restartRound`. -/
theorem restartRound_run (now : Nat) (seeds : Nat → Nat) (db : DB)
    (hph : db.state.phase = Phase.round_ended) :
    restartRoundM now seeds db =
      (Except.ok (),
        { players := restartDealtPlayers db.players db.state.finishedOrder
            (shuffleArray seeds (db.players.flatMap GP.hand ++ db.state.discardPile))
          state := { db.state with
            phase :=
              if 0 < (restartPairs db.players.length db.state.finishedOrder).length then
                Phase.exchange
              else Phase.play
            currentTurnUserId := restartLeader db.players db.state.finishedOrder
            turnNumber := db.state.turnNumber + 1
            turnStartedAt := now
            discardPile := []
            lastPlayedCount := 0
            lastPlayedRank := none
            lastPlayedBy := none
            passedUserIds := []
            finishedOrder := []
            roundLoserId := none
            exchangePairs := restartPairs db.players.length db.state.finishedOrder
            exchangeSelections := []
            roundLeaderId :=
              if 0 < (restartPairs db.players.length db.state.finishedOrder).length then
                restartLeader db.players db.state.finishedOrder
              else none } }) := by
  unfold restartRoundM
  simp only [M.bind_eq, M.getDb_bind, M.throw_app, M.ite_app, M.patch_app, M.patch_bind, hph]
  simp

theorem restartPairs_three (W Mi L : UserId) :
    restartPairs 3 [W, Mi, L] = [⟨L, W, 1⟩, ⟨W, L, 1⟩] := rfl

theorem restartPairs_four (A B C D : UserId) :
    restartPairs 4 [A, B, C, D] = [⟨A, D, 2⟩, ⟨D, A, 2⟩, ⟨B, C, 1⟩, ⟨C, B, 1⟩] := rfl

/-- Nonempty pairs need a complete finish order over at least two players. -/
theorem restartPairs_ne_nil (n : Nat) (fo : List UserId)
    (h : restartPairs n fo ≠ []) : n ≤ fo.length ∧ 2 ≤ n := by
  unfold restartPairs at h
  split_ifs at h with h1 h2 h3
  · omega
  · omega
  · exact absurd rfl h
  · exact absurd rfl h

/-- C4 — Restart computes exchange obligations from the player-count table:
for 3 players with finish order `[W, M, L]` the pairs are
`[(L→W,1), (W→L,1)]`; for 4 players with `[A,B,C,D]` they are
`[(A→D,2),(D→A,2),(B→C,1),(C→B,1)]`; whenever pairs are produced the phase
becomes `exchange` with the winner recorded (`roundLeaderId`) to lead after
completion, otherwise the phase becomes `play` with the winner leading
immediately. -/
theorem restart_exchange_pairs (now : Nat) (seeds : Nat → Nat) (db : DB)
    (hok : (restartRoundM now seeds db).1 = Except.ok ()) :
    (∀ W Mi L, db.players.length = 3 → db.state.finishedOrder = [W, Mi, L] →
      (restartRoundM now seeds db).2.state.exchangePairs = [⟨L, W, 1⟩, ⟨W, L, 1⟩] ∧
      (restartRoundM now seeds db).2.state.phase = Phase.exchange) ∧
    (∀ A B C D, db.players.length = 4 → db.state.finishedOrder = [A, B, C, D] →
      (restartRoundM now seeds db).2.state.exchangePairs =
        [⟨A, D, 2⟩, ⟨D, A, 2⟩, ⟨B, C, 1⟩, ⟨C, B, 1⟩] ∧
      (restartRoundM now seeds db).2.state.phase = Phase.exchange) ∧
    ((restartRoundM now seeds db).2.state.exchangePairs ≠ [] →
      (restartRoundM now seeds db).2.state.phase = Phase.exchange ∧
      (restartRoundM now seeds db).2.state.roundLeaderId = db.state.finishedOrder.head? ∧
      (restartRoundM now seeds db).2.state.currentTurnUserId = db.state.finishedOrder.head?) ∧
    ((restartRoundM now seeds db).2.state.exchangePairs = [] →
      (restartRoundM now seeds db).2.state.phase = Phase.play ∧
      (0 < db.state.finishedOrder.length →
        (restartRoundM now seeds db).2.state.currentTurnUserId =
          db.state.finishedOrder.head?)) := by
  have hph : db.state.phase = Phase.round_ended := by
    by_contra hph
    unfold restartRoundM at hok
    simp only [M.bind_eq, M.getDb_bind, M.throw_app, M.ite_app, M.patch_app, M.patch_bind] at hok
    rw [if_pos hph] at hok
    exact absurd hok (by simp)
  rw [restartRound_run now seeds db hph]
  refine ⟨?_, ?_, ?_, ?_⟩
  · intro W Mi L hn hfo
    simp only [hn, hfo, restartPairs_three]
    exact ⟨by trivial, by trivial⟩
  · intro A B C D hn hfo
    simp only [hn, hfo, restartPairs_four]
    exact ⟨by trivial, by trivial⟩
  · intro hne
    simp only at hne
    have hlt : 0 < (restartPairs db.players.length db.state.finishedOrder).length := by
      cases hp : restartPairs db.players.length db.state.finishedOrder with
      | nil => exact absurd hp hne
      | cons a l => simp [hp]
    have hfo : 0 < db.state.finishedOrder.length := by
      have := restartPairs_ne_nil db.players.length db.state.finishedOrder hne
      omega
    simp only [if_pos hlt]
    refine ⟨by trivial, ?_, ?_⟩ <;> simp [restartLeader, if_pos hfo]
  · intro hnil
    simp only at hnil
    have hlt : ¬ 0 < (restartPairs db.players.length db.state.finishedOrder).length := by
      simp [hnil]
    simp only [if_neg hlt]
    exact ⟨by trivial, fun hfo => by simp [restartLeader, if_pos hfo]⟩

/-- A 4-player `round_ended` state with complete finish order `[2, 3, 4, 1]`. -/
def dbRoundEnded4 : DB := {
  players := [
    ⟨1, 0, [⟨'5', 'S'⟩]⟩,
    ⟨2, 1, []⟩,
    ⟨3, 2, []⟩,
    ⟨4, 3, []⟩ ]
  state := { dbRoundEnded.state with finishedOrder := [2, 3, 4, 1] } }

theorem restart_exchange_pairs_witness :
    (restartRoundM 9 (fun _ => 0) dbRoundEnded).2.state.exchangePairs =
      [⟨1, 2, 1⟩, ⟨2, 1, 1⟩] ∧
    (restartRoundM 9 (fun _ => 0) dbRoundEnded).2.state.phase = Phase.exchange ∧
    (restartRoundM 9 (fun _ => 0) dbRoundEnded4).2.state.exchangePairs =
      [⟨2, 1, 2⟩, ⟨1, 2, 2⟩, ⟨3, 4, 1⟩, ⟨4, 3, 1⟩] ∧
    (restartRoundM 9 (fun _ => 0) dbRoundEnded4).2.state.phase = Phase.exchange :=
  ⟨((restart_exchange_pairs 9 (fun _ => 0) dbRoundEnded (by decide)).1 2 3 1
      (by decide) rfl).1,
   ((restart_exchange_pairs 9 (fun _ => 0) dbRoundEnded (by decide)).1 2 3 1
      (by decide) rfl).2,
   ((restart_exchange_pairs 9 (fun _ => 0) dbRoundEnded4 (by decide)).2.1 2 3 4 1
      (by decide) rfl).1,
   ((restart_exchange_pairs 9 (fun _ => 0) dbRoundEnded4 (by decide)).2.1 2 3 4 1
      (by decide) rfl).2⟩

/-- An accepted `pass` implies the three validation facts. -/
theorem passM_ok_guards (uid : UserId) (now : Nat) (db : DB)
    (hok : (passM uid now db).1 = Except.ok ()) :
    db.state.phase = Phase.play ∧ db.state.currentTurnUserId = some uid ∧
    ¬ db.state.lastPlayedCount = 0 := by
  unfold passM at hok
  simp only [M.bind_eq, M.getDb_bind, M.throw_app, M.ite_app, M.patch_app] at hok
  split_ifs at hok with h1 h2 h3 h4
  all_goals
    exact ⟨by cases hph : db.state.phase <;> simp_all, not_not.mp h3, h4⟩

/-- The next-eligible-seat computation of `pass` (lines 453-458): the passer
joins the passed set, zero-card seats are skipped. -/
def passNext (db : DB) (uid : UserId) : Option UserId :=
  getNextPlayerToPlay db.players uid (db.state.passedUserIds ++ [uid])
    ((db.players.filter fun p => p.hand.length == 0).map GP.userId)

/-- C5 — For every accepted pass the table clears and the turn returns to the
standing play's author exactly when no eligible next seat remains, or the
next eligible seat is the author and the number of distinct passers has
reached player count minus one; on clearing, the standing-play descriptor is
reset and the passed set is emptied.  (`hnodup` is the reachability fact that
passers are distinct, so that the passed list's length counts them.) -/
theorem pass_clear_iff (uid : UserId) (now : Nat) (db : DB) (a : UserId)
    (hok : (passM uid now db).1 = Except.ok ())
    (hauthor : db.state.lastPlayedBy = some a)
    (hnodup : (db.state.passedUserIds ++ [uid]).Nodup) :
    ((passM uid now db).2.state.lastPlayedCount = 0 ∧
     (passM uid now db).2.state.lastPlayedRank = none ∧
     (passM uid now db).2.state.lastPlayedBy = none ∧
     (passM uid now db).2.state.passedUserIds = [] ∧
     (passM uid now db).2.state.currentTurnUserId = some a) ↔
    (passNext db uid = none ∨
     (passNext db uid = some a ∧
      db.players.length - 1 ≤ ((db.state.passedUserIds ++ [uid]).dedup).length)) := by
  obtain ⟨hph, hturn, hcnt⟩ := passM_ok_guards uid now db hok
  rw [List.Nodup.dedup hnodup]
  unfold passM passNext
  simp only [M.bind_eq, M.getDb_bind, M.throw_app, M.ite_app, M.patch_app, hph, hturn,
    hauthor, hcnt, reduceCtorEq, ne_eq, not_true_eq_false, not_false_eq_true,
    if_false, if_true, ite_false, ite_true]
  split_ifs with hn1 hn2
  · constructor
    · intro _
      exact Or.inl hn1
    · intro _
      exact ⟨rfl, rfl, rfl, rfl, rfl⟩
  · constructor
    · intro _
      exact Or.inr ⟨hn2.2.1, hn2.2.2⟩
    · intro _
      exact ⟨rfl, rfl, rfl, rfl, rfl⟩
  · constructor
    · intro hL
      exact absurd hL.1 hcnt
    · intro hR
      rcases hR with h | ⟨ha, hlen⟩
      · exact absurd h hn1
      · exact absurd ⟨by simp, ha, hlen⟩ hn2

/-- `dbPassAccept` after user 2 has passed: user 3 is on turn and their pass
completes the pass-around. -/
def dbPassClear : DB := {
  players := dbPassAccept.players
  state := { dbPassAccept.state with
    currentTurnUserId := some 3
    passedUserIds := [2] } }

theorem pass_clear_iff_witness :
    ((passM 3 9 dbPassClear).2.state.lastPlayedCount = 0 ∧
     (passM 3 9 dbPassClear).2.state.lastPlayedRank = none ∧
     (passM 3 9 dbPassClear).2.state.lastPlayedBy = none ∧
     (passM 3 9 dbPassClear).2.state.passedUserIds = [] ∧
     (passM 3 9 dbPassClear).2.state.currentTurnUserId = some 1) ↔
    (passNext dbPassClear 3 = none ∨
     (passNext dbPassClear 3 = some 1 ∧
      dbPassClear.players.length - 1 ≤
        ((dbPassClear.state.passedUserIds ++ [3]).dedup).length)) :=
  pass_clear_iff 3 9 dbPassClear 1 (by decide) (by decide) (by decide)

/-- The splice-by-indexOf loop succeeds exactly when the selection is a
multiset subset of the hand. -/
theorem removeSeq_isSome_iff (cardIds : List Card) :
    ∀ hand : List Card, (removeSeq hand cardIds).isSome ↔ cardIds.Subperm hand := by
  induction cardIds with
  | nil =>
    intro hand
    simp [removeSeq, List.nil_subperm]
  | cons c cs ih =>
    intro hand
    unfold removeSeq
    split_ifs with hc
    · rw [ih (hand.erase c)]
      constructor
      · intro hsub
        rw [List.subperm_ext_iff] at hsub ⊢
        intro x hx
        rcases List.mem_cons.mp hx with rfl | hxcs
        · have h1 : 1 ≤ List.count x hand := List.count_pos_iff_mem.mpr hc
          by_cases hxc : x ∈ cs
          · have := hsub x hxc
            rw [List.count_erase_self] at this
            simp only [List.count_cons_self]
            omega
          · simp only [List.count_cons_self, List.count_eq_zero.mpr hxc]
            omega
        · by_cases hxc : x = c
          · subst hxc
            have h1 : 1 ≤ List.count x hand := List.count_pos_iff_mem.mpr hc
            have h2 := hsub x hxcs
            rw [List.count_erase_self] at h2
            simp only [List.count_cons_self]
            omega
          · have h2 := hsub x hxcs
            rw [List.count_erase_of_ne hxc] at h2
            rw [List.count_cons_of_ne hxc]
            exact h2
      · intro hsub
        rw [List.subperm_ext_iff] at hsub ⊢
        intro x hx
        by_cases hxc : x = c
        · subst hxc
          have := hsub x (List.mem_cons_self x cs)
          rw [List.count_erase_self]
          simp only [List.count_cons_self] at this
          omega
        · have := hsub x (List.mem_cons_of_mem c hx)
          rw [List.count_erase_of_ne hxc]
          rw [List.count_cons_of_ne hxc] at this
          exact this
    · simp only [Option.isSome_none, Bool.false_eq_true, false_iff]
      intro hsub
      rw [List.subperm_ext_iff] at hsub
      have := hsub c (List.mem_cons_self c cs)
      rw [List.count_eq_zero.mpr hc] at this
      simp at this

theorem mem_firstDedup (x : Char) (l : List Char) : x ∈ firstDedup l ↔ x ∈ l := by
  induction l with
  | nil => simp [firstDedup]
  | cons c cs ih =>
    by_cases hxc : x = c
    · subst hxc
      simp [firstDedup]
    · simp [firstDedup, List.mem_filter, ih, hxc]

theorem firstDedup_nodup (l : List Char) : (firstDedup l).Nodup := by
  induction l with
  | nil => exact List.nodup_nil
  | cons c cs ih =>
    unfold firstDedup
    refine List.Nodup.cons ?_ (List.Nodup.filter _ ih)
    intro hmem
    have := (List.mem_filter.mp hmem).2
    simp at this

/-- At most one distinct value survives first-occurrence deduplication
exactly when all values are equal. -/
theorem firstDedup_length_le_one_iff (l : List Char) :
    (firstDedup l).length ≤ 1 ↔ ∀ x ∈ l, ∀ y ∈ l, x = y := by
  rcases hd : firstDedup l with _ | ⟨a, tl⟩
  · have hl : l = [] := by
      cases l with
      | nil => rfl
      | cons c cs => simp [firstDedup] at hd
    subst hl
    simp
  · cases tl with
    | nil =>
      simp only [List.length_cons, List.length_nil, le_refl, true_iff]
      intro x hx y hy
      have hx1 : x ∈ firstDedup l := (mem_firstDedup x l).mpr hx
      have hy1 : y ∈ firstDedup l := (mem_firstDedup y l).mpr hy
      rw [hd] at hx1 hy1
      simp only [List.mem_singleton] at hx1 hy1
      rw [hx1, hy1]
    | cons b tl2 =>
      simp only [List.length_cons, false_iff]
      constructor
      · omega
      · intro hall
        exfalso
        have hnd := firstDedup_nodup l
        rw [hd] at hnd
        have hab : a ≠ b := by
          intro hab
          rw [List.nodup_cons] at hnd
          exact hnd.1 (hab ▸ List.mem_cons_self b tl2)
        have ha : a ∈ l := (mem_firstDedup a l).mp (hd ▸ List.mem_cons_self a _)
        have hb : b ∈ l := (mem_firstDedup b l).mp
          (hd ▸ List.mem_cons_of_mem a (List.mem_cons_self b tl2))
        exact hab (hall a ha b hb)

theorem firstDedup_headD (l : List Char) (d : Char) :
    (firstDedup l).headD d = l.headD d := by
  cases l <;> rfl

/-- Acceptance of `playCards` written as the conjunction of its guard
conditions, in source order. -/
theorem playCardsM_ok_iff_guards (uid : UserId) (cardIds : List Card) (now : Nat)
    (db : DB) (gp : GP)
    (hgp : (db.players.find? fun p => p.userId == uid) = some gp) :
    (playCardsM uid cardIds now db).1 = Except.ok () ↔
      (¬ cardIds.length = 0 ∧
       ¬ db.state.phase = Phase.exchange ∧
       ¬ db.state.phase = Phase.round_ended ∧
       db.state.currentTurnUserId = some uid ∧
       (removeSeq gp.hand cardIds).isSome = true ∧
       ¬ ((cardIds.map Card.rank).filter fun r => r == '2').length = cardIds.length ∧
       ¬ 1 < (firstDedup ((cardIds.map Card.rank).filter fun r => r != '2')).length ∧
       ¬ (0 < db.state.lastPlayedCount ∧ cardIds.length < db.state.lastPlayedCount) ∧
       ¬ (0 < db.state.lastPlayedCount ∧
          rankValueOpt db.state.lastPlayedRank <
            rankValue ((firstDedup ((cardIds.map Card.rank).filter fun r => r != '2')).headD '2'))) := by
  unfold playCardsM
  simp only [M.bind_eq, M.getDb_bind, M.optCase_app, M.patch_bind, M.throw_app, M.ite_app, hgp]
  rcases hrs : removeSeq gp.hand cardIds with _ | newHand <;>
    simp only [hrs] <;>
    split_ifs <;>
    simp_all

theorem mem_nonTwos (cardIds : List Card) (x : Char) :
    x ∈ (cardIds.map Card.rank).filter (fun r => r != '2') ↔
      ∃ c ∈ cardIds, c.rank = x ∧ x ≠ '2' := by
  simp only [List.mem_filter, List.mem_map, bne_iff_ne, ne_eq]
  constructor
  · rintro ⟨⟨c, hc, rfl⟩, hx⟩
    exact ⟨c, hc, rfl, hx⟩
  · rintro ⟨c, hc, rfl, hx⟩
    exact ⟨⟨c, hc, rfl⟩, hx⟩

theorem headD_mem_of_ne_nil (l : List Char) (d : Char) (h : l ≠ []) : l.headD d ∈ l := by
  cases l with
  | nil => exact absurd rfl h
  | cons a tl => exact List.mem_cons_self a tl

/-- C2 — A play is accepted exactly when: the phase is `play`, the actor
holds the turn, the selection is a multiset subset of the actor's hand, the
selection is not wildcards-only (some card is not a 2) and after removing
wildcard 2s carries at most one distinct rank, and either the table is clear
or the selection size reaches the standing count and every non-wild selected
rank is the same or stronger than the standing rank.  (`hgp`: the actor is
seated; `hrank`: a standing play records its rank.) -/
theorem play_acceptance_iff (uid : UserId) (cardIds : List Card) (now : Nat)
    (db : DB) (gp : GP)
    (hgp : (db.players.find? fun p => p.userId == uid) = some gp)
    (hrank : ¬ db.state.lastPlayedCount = 0 → ∃ r, db.state.lastPlayedRank = some r) :
    (playCardsM uid cardIds now db).1 = Except.ok () ↔
    (db.state.phase = Phase.play ∧
     db.state.currentTurnUserId = some uid ∧
     cardIds.Subperm gp.hand ∧
     (∃ c ∈ cardIds, c.rank ≠ '2') ∧
     (∀ c ∈ cardIds, ∀ c2 ∈ cardIds, c.rank ≠ '2' → c2.rank ≠ '2' → c.rank = c2.rank) ∧
     (db.state.lastPlayedCount = 0 ∨
      (db.state.lastPlayedCount ≤ cardIds.length ∧
       ∀ c ∈ cardIds, c.rank ≠ '2' → ∀ r, db.state.lastPlayedRank = some r →
         rankValue c.rank ≤ rankValue r))) := by
  rw [playCardsM_ok_iff_guards uid cardIds now db gp hgp]
  have hlenmap : (cardIds.map Card.rank).length = cardIds.length := List.length_map _ _
  have hE3 : ¬ ((cardIds.map Card.rank).filter fun r => r == '2').length = cardIds.length ↔
      ∃ c ∈ cardIds, c.rank ≠ '2' := by
    rw [← hlenmap, List.filter_length_eq_length]
    simp only [beq_iff_eq, List.mem_map, not_forall]
    constructor
    · rintro ⟨x, hx, hne⟩
      obtain ⟨c, hc, rfl⟩ := hx
      exact ⟨c, hc, hne⟩
    · rintro ⟨c, hc, hne⟩
      exact ⟨c.rank, ⟨c, hc, rfl⟩, hne⟩
  have hE4 : ¬ 1 < (firstDedup ((cardIds.map Card.rank).filter fun r => r != '2')).length ↔
      (∀ c ∈ cardIds, ∀ c2 ∈ cardIds, c.rank ≠ '2' → c2.rank ≠ '2' → c.rank = c2.rank) := by
    rw [Nat.not_lt, firstDedup_length_le_one_iff]
    constructor
    · intro h c hc c2 hc2 hn hn2
      exact h c.rank ((mem_nonTwos cardIds c.rank).mpr ⟨c, hc, rfl, hn⟩)
        c2.rank ((mem_nonTwos cardIds c2.rank).mpr ⟨c2, hc2, rfl, hn2⟩)
    · intro h x hx y hy
      obtain ⟨c, hc, rfl, hn⟩ := (mem_nonTwos cardIds x).mp hx
      obtain ⟨c2, hc2, rfl, hn2⟩ := (mem_nonTwos cardIds y).mp hy
      exact h c hc c2 hc2 hn hn2
  constructor
  · rintro ⟨h0, h1, h2, h3, h4, h5, h6, h7, h8⟩
    have hphase : db.state.phase = Phase.play := by
      cases hph : db.state.phase <;> simp_all
    have hnw : ∃ c ∈ cardIds, c.rank ≠ '2' := hE3.mp h5
    have huq := hE4.mp h6
    refine ⟨hphase, h3, (removeSeq_isSome_iff cardIds gp.hand).mp h4, hnw, huq, ?_⟩
    by_cases hlc : db.state.lastPlayedCount = 0
    · exact Or.inl hlc
    · refine Or.inr ⟨by omega, ?_⟩
      intro c hc hcn r hr
      obtain ⟨c0, hc0, hcn0⟩ := hnw
      have hne : ((cardIds.map Card.rank).filter fun r => r != '2') ≠ [] := by
        intro hnil
        have : c0.rank ∈ (cardIds.map Card.rank).filter fun r => r != '2' :=
          (mem_nonTwos cardIds c0.rank).mpr ⟨c0, hc0, rfl, hcn0⟩
        rw [hnil] at this
        exact List.not_mem_nil _ this
      have hhead : ((cardIds.map Card.rank).filter fun r => r != '2').headD '2' ∈
          (cardIds.map Card.rank).filter fun r => r != '2' :=
        headD_mem_of_ne_nil _ _ hne
      obtain ⟨ch, hch, hchr, hchn⟩ := (mem_nonTwos cardIds _).mp hhead
      have hcr : c.rank = ((cardIds.map Card.rank).filter fun r => r != '2').headD '2' := by
        rw [← hchr]
        exact huq c hc ch hch hcn (hchr ▸ hchn)
      have h8a : ¬ rankValueOpt db.state.lastPlayedRank <
          rankValue ((firstDedup ((cardIds.map Card.rank).filter fun r => r != '2')).headD '2') := by
        intro hlt
        exact h8 ⟨by omega, hlt⟩
      rw [firstDedup_headD] at h8a
      rw [hr] at h8a
      simp only [rankValueOpt] at h8a
      rw [hcr]
      omega
  · rintro ⟨hphase, hturn, hsub, hnw, huq, hbeat⟩
    have h5 := hE3.mpr hnw
    have h6 := hE4.mpr huq
    have h0 : ¬ cardIds.length = 0 := by
      obtain ⟨c, hc, -⟩ := hnw
      intro h
      rw [List.length_eq_zero] at h
      rw [h] at hc
      exact List.not_mem_nil _ hc
    refine ⟨h0, by simp [hphase], by simp [hphase], hturn,
      (removeSeq_isSome_iff cardIds gp.hand).mpr hsub, h5, h6, ?_, ?_⟩
    · rcases hbeat with h | ⟨hle, -⟩
      · omega
      · omega
    · rcases hbeat with h | ⟨hle, hall⟩
      · omega
      · rintro ⟨hpos, hlt⟩
        have hr := hrank (by omega)
        obtain ⟨r, hr⟩ := hr
        obtain ⟨c0, hc0, hcn0⟩ := hnw
        have hne : ((cardIds.map Card.rank).filter fun r => r != '2') ≠ [] := by
          intro hnil
          have : c0.rank ∈ (cardIds.map Card.rank).filter fun r => r != '2' :=
            (mem_nonTwos cardIds c0.rank).mpr ⟨c0, hc0, rfl, hcn0⟩
          rw [hnil] at this
          exact List.not_mem_nil _ this
        have hhead : ((cardIds.map Card.rank).filter fun r => r != '2').headD '2' ∈
            (cardIds.map Card.rank).filter fun r => r != '2' :=
          headD_mem_of_ne_nil _ _ hne
        obtain ⟨ch, hch, hchr, hchn⟩ := (mem_nonTwos cardIds _).mp hhead
        have := hall ch hch (hchr ▸ hchn) r hr
        rw [firstDedup_headD, hr] at hlt
        simp only [rankValueOpt] at hlt
        rw [hchr] at this
        omega

/-- A clear-table state where user 1 leads holding `2S 2H 5C`. -/
def dbLead : DB := {
  players := [
    ⟨1, 0, [⟨'2', 'S'⟩, ⟨'2', 'H'⟩, ⟨'5', 'C'⟩]⟩,
    ⟨2, 1, [⟨'7', 'S'⟩, ⟨'4', 'H'⟩]⟩,
    ⟨3, 2, [⟨'K', 'S'⟩, ⟨'9', 'D'⟩]⟩ ]
  state := {
    currentTurnUserId := some 1
    turnNumber := 4
    turnStartedAt := 0
    discardPile := []
    phase := Phase.play
    lastPlayedCount := 0
    lastPlayedRank := none
    lastPlayedBy := none
    passedUserIds := []
    finishedOrder := []
    roundLoserId := none
    exchangePairs := []
    exchangeSelections := []
    roundLeaderId := none } }

def dbLeadGP : GP := ⟨1, 0, [⟨'2', 'S'⟩, ⟨'2', 'H'⟩, ⟨'5', 'C'⟩]⟩

theorem play_acceptance_iff_witness :
    ¬ (playCardsM 1 [⟨'2', 'S'⟩] 9 dbLead).1 = Except.ok () ∧
    (playCardsM 1 [⟨'2', 'S'⟩, ⟨'2', 'H'⟩, ⟨'5', 'C'⟩] 9 dbLead).1 = Except.ok () :=
  ⟨fun hok => by
      have h := (play_acceptance_iff 1 [⟨'2', 'S'⟩] 9 dbLead dbLeadGP
        (by decide) (fun h => absurd rfl h)).mp hok
      exact absurd h.2.2.2.1 (by decide),
   (play_acceptance_iff 1 [⟨'2', 'S'⟩, ⟨'2', 'H'⟩, ⟨'5', 'C'⟩] 9 dbLead dbLeadGP
      (by decide) (fun h => absurd rfl h)).mpr
     (by
       refine ⟨rfl, rfl, ?_, by decide, by decide, Or.inl rfl⟩
       rw [List.subperm_ext_iff]
       decide)⟩

/-- Run characterization of an accepted `playCards` under its guard facts. -/
theorem playCards_run (uid : UserId) (cardIds : List Card) (now : Nat) (db : DB)
    (gp : GP) (newHand : List Card)
    (hgp : (db.players.find? fun p => p.userId == uid) = some gp)
    (hrem : removeSeq gp.hand cardIds = some newHand)
    (h0 : ¬ cardIds.length = 0)
    (h1 : ¬ db.state.phase = Phase.exchange)
    (h2 : ¬ db.state.phase = Phase.round_ended)
    (h3 : db.state.currentTurnUserId = some uid)
    (h5 : ¬ ((cardIds.map Card.rank).filter fun r => r == '2').length = cardIds.length)
    (h6 : ¬ 1 < (firstDedup ((cardIds.map Card.rank).filter fun r => r != '2')).length)
    (h7 : ¬ (0 < db.state.lastPlayedCount ∧ cardIds.length < db.state.lastPlayedCount))
    (h8 : ¬ (0 < db.state.lastPlayedCount ∧
        rankValueOpt db.state.lastPlayedRank <
          rankValue ((firstDedup ((cardIds.map Card.rank).filter fun r => r != '2')).headD '2'))) :
    playCardsM uid cardIds now db =
      (Except.ok (),
        { players := patchHand db.players uid newHand
          state := playNewGS db gp newHand cardIds
            ((firstDedup ((cardIds.map Card.rank).filter fun r => r != '2')).headD '2')
            uid now }) := by
  unfold playCardsM
  simp only [M.bind_eq, M.getDb_bind, M.optCase_app, M.patch_bind, M.patch_app, M.throw_app,
    M.ite_app, hgp, hrem, h0, h1, h2, h3, h5, h6, h7, h8, ne_eq, not_true_eq_false,
    not_false_eq_true, if_false, if_true, ite_false, ite_true, reduceCtorEq]

/-- The number of seats holding at least one card. -/
def seatsHolding (players : List GP) : Nat :=
  (players.filter fun p => decide (0 < p.hand.length)).length

theorem length_filter_map {α β : Type} (f : α → β) (q : β → Bool) (l : List α) :
    ((l.map f).filter q).length = (l.filter fun a => q (f a)).length := by
  induction l with
  | nil => rfl
  | cons x xs ih =>
    simp only [List.map_cons, List.filter_cons]
    by_cases hq : q (f x) = true
    · simp [hq, ih]
    · simp only [Bool.not_eq_true] at hq
      simp [hq, ih]

/-- The code's substituted holder count equals the holder count of the
updated roster, given one row per user id. -/
theorem seatsHolding_patchHand (players : List GP) (uid : UserId) (nh : List Card)
    (hnodup : (players.map GP.userId).Nodup) :
    ((players.map fun p => if p.userId == uid then nh.length else p.hand.length).filter
      fun c => 0 < c).length = seatsHolding (patchHand players uid nh) := by
  induction players with
  | nil => rfl
  | cons p ps ih =>
    simp only [List.map_cons, List.nodup_cons] at hnodup
    obtain ⟨hp, hps⟩ := hnodup
    by_cases hpu : p.userId = uid
    · subst hpu
      have hmap : (ps.map fun q => if q.userId == p.userId then nh.length else q.hand.length) =
          ps.map fun q => q.hand.length := by
        apply List.map_congr_left
        intro q hq
        have hne : q.userId ≠ p.userId := by
          intro he
          exact hp (he ▸ List.mem_map_of_mem GP.userId hq)
        simp [hne]
      unfold seatsHolding patchHand
      rw [if_pos rfl]
      simp only [List.map_cons, beq_self_eq_true, if_true, hmap, List.filter_cons]
      by_cases hnh : 0 < nh.length <;>
        simp [hnh, length_filter_map (fun q => q.hand.length) (fun c => decide (0 < c)) ps]
    · unfold seatsHolding patchHand
      rw [if_neg hpu]
      have hbeq : (p.userId == uid) = false := by
        simp [hpu]
      simp only [List.map_cons, hbeq, Bool.false_eq_true, if_false, List.filter_cons]
      have ihr := ih hps
      unfold seatsHolding at ihr
      simp only [beq_iff_eq] at ihr
      by_cases hph : 0 < p.hand.length <;> simp [hph, ihr]

theorem two_mem_le_length_filter {α : Type} (l : List α) (q : α → Bool) (a b : α)
    (hab : a ≠ b) (hqa : q a = true) (hqb : q b = true) :
    ∀ (ha : a ∈ l) (hb : b ∈ l), 2 ≤ (l.filter q).length := by
  induction l with
  | nil => intro ha _; exact absurd ha (List.not_mem_nil a)
  | cons x xs ih =>
    intro ha hb
    rcases List.mem_cons.mp ha with rfl | ha2
    · have hb2 : b ∈ xs := by
        rcases List.mem_cons.mp hb with rfl | h
        · exact absurd rfl hab
        · exact h
      have hbf : b ∈ xs.filter q := List.mem_filter.mpr ⟨hb2, hqb⟩
      have hlen : 0 < (xs.filter q).length := List.length_pos_of_mem hbf
      simp only [List.filter_cons, hqa, if_true, List.length_cons]
      omega
    · rcases List.mem_cons.mp hb with rfl | hb2
      · have haf : a ∈ xs.filter q := List.mem_filter.mpr ⟨ha2, hqa⟩
        have hlen : 0 < (xs.filter q).length := List.length_pos_of_mem haf
        simp only [List.filter_cons, hqb, if_true, List.length_cons]
        omega
      · have hih := ih ha2 hb2
        simp only [List.filter_cons]
        by_cases hqx : q x = true
        · simp only [hqx, if_true, List.length_cons]
          omega
        · simp only [Bool.not_eq_true] at hqx
          simp only [hqx, Bool.false_eq_true, if_false]
          exact hih

/-- In the round-end branch of `playNewGS` the loser fields are set. -/
theorem playNewGS_fire (db : DB) (gp : GP) (newHand cardIds : List Card) (pr : Char)
    (uid : UserId) (now : Nat) (pl : GP)
    (hfire : newHand.length = 0 ∧
      ((db.players.map fun p => if p.userId == gp.userId then newHand.length else p.hand.length).filter
        fun c => 0 < c).length = 1)
    (hpl : (db.players.find? fun p =>
        0 < (if p.userId == gp.userId then newHand.length else p.hand.length)) = some pl) :
    (playNewGS db gp newHand cardIds pr uid now).phase = Phase.round_ended ∧
    (playNewGS db gp newHand cardIds pr uid now).roundLoserId = some pl.userId ∧
    (playNewGS db gp newHand cardIds pr uid now).finishedOrder.getLast? = some pl.userId ∧
    (playNewGS db gp newHand cardIds pr uid now).lastPlayedCount = 0 ∧
    (playNewGS db gp newHand cardIds pr uid now).lastPlayedRank = none ∧
    (playNewGS db gp newHand cardIds pr uid now).lastPlayedBy = none := by
  simp only [playNewGS]
  rw [if_pos hfire]
  simp only [hpl, Option.map]
  simp [List.getLast?_concat]

/-- Outside the round-end branch `playNewGS` keeps the phase. -/
theorem playNewGS_not_fire (db : DB) (gp : GP) (newHand cardIds : List Card) (pr : Char)
    (uid : UserId) (now : Nat)
    (hnf : ¬ (newHand.length = 0 ∧
      ((db.players.map fun p => if p.userId == gp.userId then newHand.length else p.hand.length).filter
        fun c => 0 < c).length = 1)) :
    (playNewGS db gp newHand cardIds pr uid now).phase = db.state.phase := by
  simp only [playNewGS]
  rw [if_neg hnf]

/-- C3 — In phase `play`, an accepted play results in phase `round_ended`
exactly when, after removing the played cards, exactly one seat still holds
at least one card; when it fires, that seat (a non-actor seat still holding
cards) is recorded as the round loser and appended at the end of the finish
order, and the standing play descriptor is cleared.  (`hother` is the
reachability fact that a seat other than the actor still held cards before
the play; `hnodup`: one row per user id.) -/
theorem round_end_iff_one_holder (uid : UserId) (cardIds : List Card) (now : Nat)
    (db : DB) (gp : GP) (newHand : List Card)
    (hok : (playCardsM uid cardIds now db).1 = Except.ok ())
    (hgp : (db.players.find? fun p => p.userId == uid) = some gp)
    (hrem : removeSeq gp.hand cardIds = some newHand)
    (hnodup : (db.players.map GP.userId).Nodup)
    (hother : ∃ p ∈ db.players, p.userId ≠ uid ∧ p.hand ≠ []) :
    ((playCardsM uid cardIds now db).2.state.phase = Phase.round_ended ↔
      seatsHolding (patchHand db.players uid newHand) = 1) ∧
    ((playCardsM uid cardIds now db).2.state.phase = Phase.round_ended →
      ∃ l, (playCardsM uid cardIds now db).2.state.roundLoserId = some l ∧
        (∃ p ∈ db.players, p.userId = l ∧ p.userId ≠ uid ∧ p.hand ≠ []) ∧
        (playCardsM uid cardIds now db).2.state.finishedOrder.getLast? = some l ∧
        (playCardsM uid cardIds now db).2.state.lastPlayedCount = 0 ∧
        (playCardsM uid cardIds now db).2.state.lastPlayedRank = none ∧
        (playCardsM uid cardIds now db).2.state.lastPlayedBy = none) := by
  obtain ⟨h0, h1, h2, h3, h4, h5, h6, h7, h8⟩ :=
    (playCardsM_ok_iff_guards uid cardIds now db gp hgp).mp hok
  have gpuid : gp.userId = uid := by
    have := List.find?_some hgp
    simpa using this
  have gpmem : gp ∈ db.players := List.mem_of_find?_eq_some hgp
  have hphase : db.state.phase = Phase.play := by
    cases hp : db.state.phase <;> simp_all
  rw [playCards_run uid cardIds now db gp newHand hgp hrem h0 h1 h2 h3 h5 h6 h7 h8]
  have hbridge := seatsHolding_patchHand db.players uid newHand hnodup
  obtain ⟨p0, hp0mem, hp0ne, hp0hand⟩ := hother
  have hp0len : 0 < p0.hand.length := by
    cases hn : p0.hand with
    | nil => exact absurd hn hp0hand
    | cons a tl => simp
  by_cases hfire : (newHand.length = 0 ∧
      ((db.players.map fun p => if p.userId == gp.userId then newHand.length else p.hand.length).filter
        fun c => 0 < c).length = 1)
  · -- the round ends
    have hfs : ((db.players.find? fun p =>
        0 < (if p.userId == gp.userId then newHand.length else p.hand.length)).isSome) = true := by
      rw [List.find?_isSome]
      refine ⟨p0, hp0mem, ?_⟩
      have hbeq : (p0.userId == gp.userId) = false := by
        simp [gpuid, hp0ne]
      simp only [hbeq, Bool.false_eq_true, if_false, decide_eq_true_eq]
      exact hp0len
    obtain ⟨pl, hpl⟩ := Option.isSome_iff_exists.mp hfs
    have hplpred := List.find?_some hpl
    have hplmem := List.mem_of_find?_eq_some hpl
    have hplne : pl.userId ≠ uid := by
      intro he
      have hbeq : (pl.userId == gp.userId) = true := by simp [gpuid, he]
      rw [hbeq] at hplpred
      simp only [if_true, decide_eq_true_eq] at hplpred
      omega
    have hplhand : pl.hand ≠ [] := by
      have hbeq : (pl.userId == gp.userId) = false := by simp [gpuid, hplne]
      rw [hbeq] at hplpred
      simp only [Bool.false_eq_true, if_false, decide_eq_true_eq] at hplpred
      intro he
      rw [he] at hplpred
      simp at hplpred
    obtain ⟨hfp, hfl, hflast, hfc, hfr, hfb⟩ :=
      playNewGS_fire db gp newHand cardIds
        ((firstDedup ((cardIds.map Card.rank).filter fun r => r != '2')).headD '2')
        uid now pl hfire hpl
    constructor
    · simp only [hfp]
      constructor
      · intro _
        rw [← hbridge, ← gpuid]
        exact hfire.2
      · intro _
        trivial
    · intro _
      exact ⟨pl.userId, hfl, ⟨pl, hplmem, rfl, hplne, hplhand⟩, hflast, hfc, hfr, hfb⟩
  · -- the round does not end
    have hnf := playNewGS_not_fire db gp newHand cardIds
      ((firstDedup ((cardIds.map Card.rank).filter fun r => r != '2')).headD '2')
      uid now hfire
    constructor
    · simp only [hnf, hphase]
      constructor
      · intro hre
        exact absurd hre (by simp)
      · intro hone
        exfalso
        apply hfire
        rw [← hbridge, ← gpuid] at hone
        refine ⟨?_, hone⟩
        by_contra hnh
        have hlen : 0 < newHand.length := by
          cases hn : newHand with
          | nil => exact absurd (by rw [hn]; rfl) hnh
          | cons a tl => simp [hn]
        have h2le : 2 ≤ ((db.players.map fun p =>
            if p.userId == gp.userId then newHand.length else p.hand.length).filter
              fun c => 0 < c).length := by
          rw [length_filter_map]
          refine two_mem_le_length_filter db.players _ gp p0 ?_ ?_ ?_ gpmem hp0mem
          · intro he
            rw [he] at gpuid
            exact hp0ne gpuid
          · have hbeq : (gp.userId == gp.userId) = true := by simp
            simp only [hbeq, if_true, decide_eq_true_eq]
            exact hlen
          · have hbeq : (p0.userId == gp.userId) = false := by simp [gpuid, hp0ne]
            simp only [hbeq, Bool.false_eq_true, if_false, decide_eq_true_eq]
            exact hp0len
        omega
    · intro hre
      rw [hnf, hphase] at hre
      exact absurd hre (by simp)

/-- Two seats, user 1 about to shed their last card. -/
def dbEndRound : DB := {
  players := [⟨1, 0, [⟨'A', 'S'⟩]⟩, ⟨2, 1, [⟨'7', 'S'⟩]⟩]
  state := dbLead.state }

theorem round_end_iff_one_holder_witness :
    (((playCardsM 1 [⟨'A', 'S'⟩] 9 dbEndRound).2.state.phase = Phase.round_ended ↔
       seatsHolding (patchHand dbEndRound.players 1 []) = 1) ∧
     ((playCardsM 1 [⟨'A', 'S'⟩] 9 dbEndRound).2.state.phase = Phase.round_ended →
       ∃ l, (playCardsM 1 [⟨'A', 'S'⟩] 9 dbEndRound).2.state.roundLoserId = some l ∧
         (∃ p ∈ dbEndRound.players, p.userId = l ∧ p.userId ≠ 1 ∧ p.hand ≠ []) ∧
         (playCardsM 1 [⟨'A', 'S'⟩] 9 dbEndRound).2.state.finishedOrder.getLast? = some l ∧
         (playCardsM 1 [⟨'A', 'S'⟩] 9 dbEndRound).2.state.lastPlayedCount = 0 ∧
         (playCardsM 1 [⟨'A', 'S'⟩] 9 dbEndRound).2.state.lastPlayedRank = none ∧
         (playCardsM 1 [⟨'A', 'S'⟩] 9 dbEndRound).2.state.lastPlayedBy = none)) :=
  round_end_iff_one_holder 1 [⟨'A', 'S'⟩] 9 dbEndRound ⟨1, 0, [⟨'A', 'S'⟩]⟩ []
    (by decide) (by decide) (by decide) (by decide) (by decide)

theorem mem_insertBySeat (p q : GP) (l : List GP) :
    q ∈ insertBySeat p l ↔ q ∈ p :: l := by
  induction l with
  | nil => simp [insertBySeat]
  | cons x xs ih =>
    unfold insertBySeat
    split_ifs
    · rfl
    · simp only [List.mem_cons, ih]
      tauto

theorem mem_sortBySeat (q : GP) (l : List GP) : q ∈ sortBySeat l ↔ q ∈ l := by
  induction l with
  | nil => rfl
  | cons x xs ih =>
    unfold sortBySeat
    rw [mem_insertBySeat]
    simp [ih]

theorem findUserIdx_isSome_of_mem (uid : UserId) (l : List GP)
    (h : ∃ p ∈ l, p.userId = uid) : (findUserIdx uid l).isSome = true := by
  induction l with
  | nil => simp at h
  | cons x xs ih =>
    simp only [findUserIdx]
    split_ifs with hx
    · rfl
    · obtain ⟨p, hp, hpu⟩ := h
      rcases List.mem_cons.mp hp with rfl | hp2
      · exact absurd hpu hx
      · have h2 := ih ⟨p, hp2, hpu⟩
        obtain ⟨i, hi⟩ := Option.isSome_iff_exists.mp h2
        simp [hi]

/-- The rotation search only returns seats that have not passed, are not
skipped, and are seated. -/
theorem eligibleSearch_spec (sorted : List GP) (idx : Nat) (current : UserId)
    (passed skips : List UserId) (u : UserId) :
    ∀ is : List Nat, eligibleSearch sorted idx current passed skips is = some u →
      u ∉ passed ∧ ∃ p ∈ sorted, p.userId = u := by
  intro is
  induction is with
  | nil => intro h; exact absurd h (by simp [eligibleSearch])
  | cons i rest ih =>
    intro h
    unfold eligibleSearch at h
    split at h
    next hg => exact ih h
    next nxt hg =>
      split_ifs at h with hcond
      · obtain ⟨-, hnp, -⟩ := hcond
        injection h with h
        subst h
        exact ⟨hnp, nxt, List.get?_mem hg, rfl⟩
      · exact ih h

/-- `getNextPlayerToPlay` never selects a passed seat, and selects a seated
one, when the current player is seated. -/
theorem getNextPlayerToPlay_spec (players : List GP) (current : UserId)
    (passed skips : List UserId) (u : UserId)
    (hcur : ∃ p ∈ players, p.userId = current)
    (h : getNextPlayerToPlay players current passed skips = some u) :
    u ∉ passed ∧ ∃ p ∈ players, p.userId = u := by
  have hsome : (findUserIdx current (sortBySeat players)).isSome = true := by
    apply findUserIdx_isSome_of_mem
    obtain ⟨p, hp, hpu⟩ := hcur
    exact ⟨p, (mem_sortBySeat p players).mpr hp, hpu⟩
  obtain ⟨idx, hidx⟩ := Option.isSome_iff_exists.mp hsome
  simp only [getNextPlayerToPlay, hidx] at h
  obtain ⟨hnp, p, hp, hpu⟩ := eligibleSearch_spec (sortBySeat players) idx current
    passed skips u (List.range' 1 ((sortBySeat players).length - 1)) h
  exact ⟨hnp, p, (mem_sortBySeat p players).mp hp, hpu⟩

theorem patchHand_map_userId (l : List GP) (uid : UserId) (h : List Card) :
    (patchHand l uid h).map GP.userId = l.map GP.userId := by
  induction l with
  | nil => rfl
  | cons p ps ih =>
    unfold patchHand
    split_ifs <;> simp [ih]

/-- Outcome facts of an accepted `pass`: either the table cleared, or the
turn moved to the computed next eligible seat and the passed set grew by the
passer. -/
theorem passM_run_cases (uid : UserId) (now : Nat) (db db' : DB)
    (h : passM uid now db = (Except.ok (), db')) :
    db.state.currentTurnUserId = some uid ∧
    db'.players = db.players ∧
    (db'.state.lastPlayedCount = 0 ∨
     (∃ nxt, passNext db uid = some nxt ∧
        db'.state.currentTurnUserId = some nxt ∧
        db'.state.passedUserIds = db.state.passedUserIds ++ [uid] ∧
        db'.state.lastPlayedCount = db.state.lastPlayedCount)) := by
  have hok : (passM uid now db).1 = Except.ok () := by rw [h]
  obtain ⟨hph, hturn, hcnt⟩ := passM_ok_guards uid now db hok
  unfold passM at h
  simp only [M.bind_eq, M.getDb_bind, M.throw_app, M.ite_app, M.patch_app, hph, hturn, hcnt,
    reduceCtorEq, ne_eq, not_true_eq_false, not_false_eq_true, if_false, if_true, ite_false,
    ite_true] at h
  split_ifs at h with hn1 hn2
  · have hdb : _ = db' := congrArg Prod.snd h
    subst hdb
    exact ⟨hturn, rfl, Or.inl rfl⟩
  · have hdb : _ = db' := congrArg Prod.snd h
    subst hdb
    exact ⟨hturn, rfl, Or.inl rfl⟩
  · have hdb : _ = db' := congrArg Prod.snd h
    subst hdb
    obtain ⟨nxt, hnxt⟩ := Option.ne_none_iff_exists'.mp hn1
    exact ⟨hturn, rfl, Or.inr ⟨nxt, hnxt, hnxt, rfl, rfl⟩⟩

theorem playNewGS_fire_count (db : DB) (gp : GP) (newHand cardIds : List Card) (pr : Char)
    (uid : UserId) (now : Nat)
    (hfire : newHand.length = 0 ∧
      ((db.players.map fun p => if p.userId == gp.userId then newHand.length else p.hand.length).filter
        fun c => 0 < c).length = 1) :
    (playNewGS db gp newHand cardIds pr uid now).lastPlayedCount = 0 := by
  simp only [playNewGS]
  rw [if_pos hfire]

/-- Outside the round-end branch, a play either clears the table or advances
the turn to a seat computed by the rotation search, preserving the passed
set. -/
theorem playNewGS_else (db : DB) (gp : GP) (newHand cardIds : List Card) (pr : Char)
    (uid : UserId) (now : Nat)
    (hnf : ¬ (newHand.length = 0 ∧
      ((db.players.map fun p => if p.userId == gp.userId then newHand.length else p.hand.length).filter
        fun c => 0 < c).length = 1)) :
    (playNewGS db gp newHand cardIds pr uid now).lastPlayedCount = 0 ∨
    ((playNewGS db gp newHand cardIds pr uid now).passedUserIds = db.state.passedUserIds ∧
     ∃ nxt, getNextPlayerToPlay db.players uid db.state.passedUserIds
         ((db.players.filter fun p =>
           (if p.userId == gp.userId then newHand.length else p.hand.length) == 0).map GP.userId) =
         some nxt ∧
       (playNewGS db gp newHand cardIds pr uid now).currentTurnUserId = some nxt) := by
  simp only [playNewGS]
  rw [if_neg hnf]
  by_cases hjf : newHand.length = 0
  · left
    simp [hjf]
  · by_cases hsp : getNextPlayerToPlay db.players uid db.state.passedUserIds
        ((db.players.filter fun p =>
          (if p.userId == gp.userId then newHand.length else p.hand.length) == 0).map GP.userId) =
        none
    · left
      simp only [hsp]
      simp [hjf]
    · right
      obtain ⟨nxt, hnxt⟩ := Option.ne_none_iff_exists'.mp hsp
      constructor
      · simp only [hnxt]
        simp [hjf]
      · refine ⟨nxt, hnxt, ?_⟩
        simp only [hnxt]
        simp

/-- Outcome facts of an accepted `playCards`: the actor held the turn, seat
ids are unchanged, and either the table cleared or the turn moved to a seat
computed by the rotation search over the unchanged passed set. -/
theorem playCardsM_run_cases (uid : UserId) (cardIds : List Card) (now : Nat) (db db' : DB)
    (h : playCardsM uid cardIds now db = (Except.ok (), db')) :
    db.state.currentTurnUserId = some uid ∧
    db'.players.map GP.userId = db.players.map GP.userId ∧
    (db'.state.lastPlayedCount = 0 ∨
     (db'.state.passedUserIds = db.state.passedUserIds ∧
      ∃ skips nxt, getNextPlayerToPlay db.players uid db.state.passedUserIds skips = some nxt ∧
        db'.state.currentTurnUserId = some nxt)) := by
  have hok : (playCardsM uid cardIds now db).1 = Except.ok () := by rw [h]
  rcases hgp : db.players.find? fun p => p.userId == uid with _ | gp
  · exfalso
    unfold playCardsM at hok
    simp only [M.bind_eq, M.getDb_bind, M.optCase_app, M.throw_app, M.ite_app,
      M.patch_bind, hgp] at hok
    split_ifs at hok <;> simp_all
  rcases hrem : removeSeq gp.hand cardIds with _ | newHand
  · exfalso
    unfold playCardsM at hok
    simp only [M.bind_eq, M.getDb_bind, M.optCase_app, M.throw_app, M.ite_app,
      M.patch_bind, hgp, hrem] at hok
    split_ifs at hok <;> simp_all
  obtain ⟨h0, h1, h2, h3, h4, h5, h6, h7, h8⟩ :=
    (playCardsM_ok_iff_guards uid cardIds now db gp hgp).mp hok
  rw [playCards_run uid cardIds now db gp newHand hgp hrem h0 h1 h2 h3 h5 h6 h7 h8] at h
  have hdb : _ = db' := congrArg Prod.snd h
  subst hdb
  refine ⟨h3, ?_, ?_⟩
  · exact patchHand_map_userId db.players uid newHand
  · by_cases hfire : (newHand.length = 0 ∧
        ((db.players.map fun p => if p.userId == gp.userId then newHand.length else p.hand.length).filter
          fun c => 0 < c).length = 1)
    · exact Or.inl (playNewGS_fire_count db gp newHand cardIds _ uid now hfire)
    · rcases playNewGS_else db gp newHand cardIds
          ((firstDedup ((cardIds.map Card.rank).filter fun r => r != '2')).headD '2')
          uid now hfire with hc | ⟨hpres, nxt, hnxt, hcur⟩
      · exact Or.inl hc
      · exact Or.inr ⟨hpres, _, nxt, hnxt, hcur⟩

/-- One engine step: an accepted `playCards` or `pass` request. -/
inductive Act
  | play (uid : UserId) (cardIds : List Card) (now : Nat)
  | pass (uid : UserId) (now : Nat)

def applyAct : Act → DB → Except String Unit × DB
  | Act.play uid cardIds now, db => playCardsM uid cardIds now db
  | Act.pass uid now, db => passM uid now db

/-- States reached from `db1` by accepted play/pass steps none of which
clears the table (the standing count stays positive). -/
inductive ReachNC : DB → DB → Prop
  | refl (db : DB) : ReachNC db db
  | step (db1 db2 db3 : DB) (a : Act) : ReachNC db1 db2 →
      applyAct a db2 = (Except.ok (), db3) →
      db3.state.lastPlayedCount ≠ 0 → ReachNC db1 db3

/-- The inductive invariant behind C6: the seat `u` stays in the passed set
and never holds the turn, and the turn holder is always seated. -/
def PassedInv (u : UserId) (db : DB) : Prop :=
  u ∈ db.state.passedUserIds ∧
  db.state.currentTurnUserId ≠ some u ∧
  ∀ v, db.state.currentTurnUserId = some v → v ∈ db.players.map GP.userId

theorem passedInv_step (u : UserId) (a : Act) (db db' : DB)
    (hinv : PassedInv u db)
    (hstep : applyAct a db = (Except.ok (), db'))
    (hnc : db'.state.lastPlayedCount ≠ 0) :
    PassedInv u db' := by
  obtain ⟨hu, hnt, hseat⟩ := hinv
  cases a with
  | play w cardIds now =>
    obtain ⟨hturn, hids, hcases⟩ := playCardsM_run_cases w cardIds now db db' hstep
    rcases hcases with hc | ⟨hpres, skips, nxt, hnxt, hcur⟩
    · exact absurd hc hnc
    · have hwseat : ∃ p ∈ db.players, p.userId = w := by
        have := hseat w hturn
        obtain ⟨p, hp, hpw⟩ := List.mem_map.mp this
        exact ⟨p, hp, hpw⟩
      obtain ⟨hnp, p, hp, hpn⟩ :=
        getNextPlayerToPlay_spec db.players w db.state.passedUserIds skips nxt hwseat hnxt
      refine ⟨hpres ▸ hu, ?_, ?_⟩
      · rw [hcur]
        intro he
        injection he with he
        exact hnp (he ▸ hu)
      · intro v hv
        rw [hcur] at hv
        injection hv with hv
        rw [hids]
        exact hv ▸ (List.mem_map.mpr ⟨p, hp, hpn⟩)
  | pass w now =>
    obtain ⟨hturn, hids, hcases⟩ := passM_run_cases w now db db' hstep
    rcases hcases with hc | ⟨nxt, hnxt, hcur, hpass, -⟩
    · exact absurd hc hnc
    · have hwseat : ∃ p ∈ db.players, p.userId = w := by
        have := hseat w hturn
        obtain ⟨p, hp, hpw⟩ := List.mem_map.mp this
        exact ⟨p, hp, hpw⟩
      unfold passNext at hnxt
      obtain ⟨hnp, p, hp, hpn⟩ :=
        getNextPlayerToPlay_spec db.players w (db.state.passedUserIds ++ [w]) _ nxt hwseat hnxt
      refine ⟨?_, ?_, ?_⟩
      · rw [hpass]
        exact List.mem_append_left _ hu
      · rw [hcur]
        intro he
        injection he with he
        exact hnp (he ▸ List.mem_append_left _ hu)
      · intro v hv
        rw [hcur] at hv
        injection hv with hv
        rw [hids]
        exact hv ▸ (List.mem_map.mpr ⟨p, hp, hpn⟩)

/-- C6 — After an accepted pass by `u` that leaves the table standing, in
every state reached by further accepted plays and passes none of which
clears the table, `u` stays in the passed set and is never selected to hold
the turn.  (`hcur`: the passer is seated, a reachability fact.) -/
theorem passed_seat_never_selected (u : UserId) (now : Nat) (db s1 sn : DB)
    (hcur : ∃ p ∈ db.players, p.userId = u)
    (hpass : passM u now db = (Except.ok (), s1))
    (hnc1 : s1.state.lastPlayedCount ≠ 0)
    (hreach : ReachNC s1 sn) :
    u ∈ sn.state.passedUserIds ∧ sn.state.currentTurnUserId ≠ some u := by
  have hbase : PassedInv u s1 := by
    obtain ⟨hturn, hids, hcases⟩ := passM_run_cases u now db s1 hpass
    rcases hcases with hc | ⟨nxt, hnxt, hcur1, hpass1, -⟩
    · exact absurd hc hnc1
    · unfold passNext at hnxt
      obtain ⟨hnp, p, hp, hpn⟩ :=
        getNextPlayerToPlay_spec db.players u (db.state.passedUserIds ++ [u]) _ nxt hcur hnxt
      refine ⟨?_, ?_, ?_⟩
      · rw [hpass1]
        exact List.mem_append_right _ (List.mem_singleton.mpr rfl)
      · rw [hcur1]
        intro he
        injection he with he
        exact hnp (he ▸ List.mem_append_right _ (List.mem_singleton.mpr rfl))
      · intro v hv
        rw [hcur1] at hv
        injection hv with hv
        rw [hids]
        exact hv ▸ (List.mem_map.mpr ⟨p, hp, hpn⟩)
  have hinv : PassedInv u sn := by
    induction hreach with
    | refl => exact hbase
    | step db2 db3 a hr hstep hnc ih =>
      exact passedInv_step u a db2 db3 ih hstep hnc
  exact ⟨hinv.1, hinv.2.1⟩

theorem passed_seat_never_selected_witness :
    2 ∈ ((passM 2 9 dbPassAccept).2).state.passedUserIds ∧
    ((passM 2 9 dbPassAccept).2).state.currentTurnUserId ≠ some 2 :=
  passed_seat_never_selected 2 9 dbPassAccept (passM 2 9 dbPassAccept).2
    (passM 2 9 dbPassAccept).2 (by decide) rfl (by decide)
    (ReachNC.refl (passM 2 9 dbPassAccept).2)

/-- All card copies currently held: every hand in seat order, then the
discard pile (the two stores of dealt cards in the game document). -/
def allCardsOf (db : DB) : List Card :=
  (db.players.flatMap GP.hand) ++ db.state.discardPile

/-- The conservation property claimed of every reachable state: the held
copies number `deckCount * 52`, and no card identifier occurs more often
than in the assembled pool. -/
def conservation (deckCount : Nat) (db : DB) : Prop :=
  (allCardsOf db).length = deckCount * 52 ∧
  ∀ c ∈ allCardsOf db, (allCardsOf db).count c ≤ (buildDeck deckCount).count c

/-- A full single-deck deal: seat 0 holds one card (the ace of spades, the
first card of the assembled pool), the other two seats hold the rest. -/
def dbConserve : DB := {
  players := [
    ⟨1, 0, (buildDeck 1).take 1⟩,
    ⟨2, 1, ((buildDeck 1).drop 1).take 25⟩,
    ⟨3, 2, (buildDeck 1).drop 26⟩ ]
  state := {
    currentTurnUserId := some 1
    turnNumber := 4
    turnStartedAt := 0
    discardPile := []
    phase := Phase.play
    lastPlayedCount := 0
    lastPlayedRank := none
    lastPlayedBy := none
    passedUserIds := []
    finishedOrder := []
    roundLoserId := none
    exchangePairs := []
    exchangeSelections := []
    roundLeaderId := none } }

/-- C1 — Refuted: conservation holds before the play, the play is accepted,
and conservation fails after it.  Seat 0 leads its last card into a clear
table; the player finishes but two seats still hold cards, so the
clear-table branch fires and `playCards` resets `discardPile` to `[]`
(games.js:398) after having appended the played card to it, destroying one
card copy: 51 copies remain of the 52 dealt. -/
theorem conservation_violated_by_clear :
    conservation 1 dbConserve ∧
    (playCardsM 1 [⟨'A', 'S'⟩] 9 dbConserve).1 = Except.ok () ∧
    ¬ conservation 1 (playCardsM 1 [⟨'A', 'S'⟩] 9 dbConserve).2 := by
  refine ⟨⟨by decide, by decide⟩, by decide, ?_⟩
  intro hcon
  have hlen := hcon.1
  revert hlen
  decide

end Cardio
